import Mathlib

/-!
Verification development for the data-alchemist normalization + validation
engine.  The TypeScript sources (`src/lib/table-columns.tsx` FileParser,
`src/types/data-models.ts` zod schemas, `src/store/data-store.ts` store
actions, `src/lib/ai-service.ts` header matching,
`src/components/rules/rule-builder.tsx` rule creation) are shallowly
embedded below.  JavaScript built-ins that the code calls but that are not
part of the repository (`Number`, `parseInt`, `JSON.parse`, `Date`, the zod
e-mail check) are modelled either as concrete Lean functions on the common
inputs or as parameters collected in `Env`.
-/

namespace DataAlchemist

/-- A scalar cell value as produced by the CSV/Excel readers: a string or
`null` (modelled `none`). -/
abbrev JsVal := Option String

/-- A raw uploaded row: a JS object, i.e. an association list from header
name to cell value.  A key that is absent models an `undefined` property. -/
abbrev RawRow := List (String × JsVal)

/-- JS property read `row[k]`: `none` = `undefined`, `some none` = `null`,
`some (some s)` = the string `s`. -/
def getv (row : RawRow) (k : String) : Option JsVal :=
  (row.find? (fun p => p.1 == k)).map (·.2)

/-- JS truthiness of a raw cell value: only a non-empty string is truthy. -/
def truthy : Option JsVal → Bool
  | some (some s) => !(s == "")
  | _ => false

/-- Spread-update `{...row, k: v}`: replaces the value at `k` in place, or
appends the property when the key is absent. -/
def setKey (row : RawRow) (k : String) (v : JsVal) : RawRow :=
  if row.any (fun p => p.1 == k) then
    row.map (fun p => if p.1 == k then (p.1, v) else p)
  else row ++ [(k, v)]

/-! Character-level string primitives.  Core's positional `String`
functions (`trim`, `splitOn`, `toLower`, ...) are defined by well-founded
recursion over byte positions and do not reduce inside the kernel, so the
embedding uses these structurally recursive equivalents over `s.data`. -/

/-- `s.trim`: strip leading and trailing whitespace. -/
def sTrim (s : String) : String :=
  String.mk
    (((s.data.dropWhile Char.isWhitespace).reverse.dropWhile
        Char.isWhitespace).reverse)

/-- `s.toLowerCase()`. -/
def sToLower (s : String) : String :=
  String.mk (s.data.map Char.toLower)

/-- Split a character list at every occurrence of `sep`. -/
def splitCharAux (sep : Char) : List Char → List (List Char)
  | [] => [[]]
  | c :: rest =>
      match splitCharAux sep rest with
      | [] => [[c]]
      | h :: t => if c = sep then [] :: h :: t else (c :: h) :: t

/-- JS `s.split(sep)` for a single-character separator. -/
def sSplit (s : String) (sep : Char) : List String :=
  (splitCharAux sep s.data).map String.mk

def sStartsWith (s p : String) : Bool := p.data.isPrefixOf s.data

def sEndsWith (s p : String) : Bool :=
  p.data.reverse.isPrefixOf s.data.reverse

def sDrop (s : String) (n : Nat) : String := String.mk (s.data.drop n)

def sContainsChar (s : String) (c : Char) : Bool := s.data.contains c

/-- The numeric value of a digit string. -/
def digitsToNat (l : List Char) : Nat :=
  l.foldl (fun n c => 10 * n + (c.toNat - '0'.toNat)) 0

/-! A JS number is modelled as an exact rational.  The embedding uses its
own rational type (always kept in lowest terms with a positive
denominator by the smart constructor, so that structural equality is
value equality): all of its operations reduce inside the kernel. -/

structure JNum where
  num : Int
  den : Nat
deriving Repr, DecidableEq

/-- Build the canonical representative of `n / d`. -/
def JNum.norm (n : Int) (d : Nat) : JNum :=
  let g := Nat.gcd n.natAbs d
  if g = 0 then ⟨0, 1⟩ else ⟨n / (g : Int), d / g⟩

instance (n : Nat) : OfNat JNum n := ⟨⟨(n : Int), 1⟩⟩

def JNum.add (a b : JNum) : JNum :=
  JNum.norm (a.num * (b.den : Int) + b.num * (a.den : Int)) (a.den * b.den)

def JNum.mul (a b : JNum) : JNum :=
  JNum.norm (a.num * b.num) (a.den * b.den)

def JNum.neg (a : JNum) : JNum := ⟨-a.num, a.den⟩

instance : Add JNum := ⟨JNum.add⟩
instance : Mul JNum := ⟨JNum.mul⟩
instance : Neg JNum := ⟨JNum.neg⟩

def JNum.lt (a b : JNum) : Prop :=
  a.num * (b.den : Int) < b.num * (a.den : Int)

def JNum.le (a b : JNum) : Prop :=
  a.num * (b.den : Int) ≤ b.num * (a.den : Int)

instance : LT JNum := ⟨JNum.lt⟩
instance : LE JNum := ⟨JNum.le⟩

instance (a b : JNum) : Decidable (a < b) :=
  inferInstanceAs (Decidable (a.num * (b.den : Int) < b.num * (a.den : Int)))

instance (a b : JNum) : Decidable (a ≤ b) :=
  inferInstanceAs (Decidable (a.num * (b.den : Int) ≤ b.num * (a.den : Int)))

instance : Min JNum := ⟨fun a b => if a ≤ b then a else b⟩
instance : Max JNum := ⟨fun a b => if a ≤ b then b else a⟩

/-- A whole-number value. -/
def JNum.ofInt (n : Int) : JNum := ⟨n, 1⟩

/-- Modelled collaborator: the JS `Number(s)` conversion on a string, for
ordinary decimal literals.  Trims the string; an empty string converts to
`0`; an optional sign followed by digits with an optional fractional part
converts to the corresponding rational; anything else is `NaN` (`none`). -/
def jsNumber (s : String) : Option JNum :=
  let t := sTrim s
  if t = "" then some 0
  else
    let (sign, body) :=
      if sStartsWith t "-" then ((-1 : Int), sDrop t 1)
      else if sStartsWith t "+" then ((1 : Int), sDrop t 1)
      else ((1 : Int), t)
    let parts := sSplit body '.'
    match parts with
    | [intPart] =>
        if intPart ≠ "" ∧ intPart.data.all Char.isDigit then
          some (JNum.ofInt (sign * (digitsToNat intPart.data : Int)))
        else none
    | [intPart, fracPart] =>
        if (intPart ≠ "" ∨ fracPart ≠ "") ∧ intPart.data.all Char.isDigit ∧
            fracPart.data.all Char.isDigit then
          let scale := 10 ^ fracPart.length
          some (JNum.norm
            (sign * ((digitsToNat intPart.data * scale +
              digitsToNat fracPart.data : Nat) : Int)) scale)
        else none
    | _ => none

/-- Modelled collaborator: JS `parseInt(s)` in base 10.  Trims the string,
then parses an optional sign followed by the longest digit prefix; no
digit at all yields `NaN` (`none`). -/
def jsParseInt (s : String) : Option Int :=
  let t := sTrim s
  let (sign, body) :=
    if sStartsWith t "-" then ((-1 : Int), sDrop t 1)
    else if sStartsWith t "+" then ((1 : Int), sDrop t 1)
    else ((1 : Int), t)
  let digits := body.data.takeWhile Char.isDigit
  if digits = [] then none else some (sign * (digitsToNat digits : Int))

/-- Modelled collaborator: JS number-to-string rendering, exact for the
integral values that appear in the validators' messages. -/
def ratToJsString (q : JNum) : String :=
  if q.den = 1 then toString q.num
  else toString q.num ++ "/" ++ toString q.den

/-- `s.replace(/[\[\]]/g, '')`: remove all square brackets. -/
def stripBrackets (s : String) : String :=
  String.mk (s.data.filter (fun c => c ≠ '[' ∧ c ≠ ']'))

/-- `s.replace(/\s+/g, '')`: remove all whitespace. -/
def stripWhitespace (s : String) : String :=
  String.mk (s.data.filter (fun c => ¬ c.isWhitespace))

/-- `a.includes(b)` on strings. -/
def jsIncludes (a b : String) : Bool :=
  a.data.tails.any (fun t => b.data.isPrefixOf t)

/-- External JS/zod built-ins the validators call, kept abstract: the
current clock, `Date` parsing and the two date bounds computed from it,
`JSON.parse` success and zod's e-mail test.  Every theorem below holds for
every environment. -/
structure Env where
  nowMs : Int
  dateParse : String → Option Int
  pastLimitMs : Int
  futureLimitMs : Int
  jsonOk : String → Bool
  emailOk : String → Bool

/-- `ValidationError` from `src/types/data-models.ts`; `value` is `none`
for the JS `null`. -/
structure ValidationError where
  row : Nat
  field : String
  message : String
  value : Option String
deriving Repr, DecidableEq

structure Summary where
  totalRows : Nat
  validRows : Int
  invalidRows : Nat
deriving Repr, DecidableEq

/-- `ValidationResult<T>`; `validData` is an optional property in the
TypeScript interface, hence the `Option`. -/
structure ValidationResult (α : Type) where
  isValid : Bool
  errors : List ValidationError
  data : List α
  validData : Option (List α)
  summary : Summary
deriving Repr, DecidableEq

/-- A zod issue: path inside the object plus a message.  Messages are
modelled up to wording for zod's built-in type errors; the custom messages
written in the schemas are embedded verbatim. -/
structure ZIssue where
  path : List String
  message : String
deriving Repr, DecidableEq

/-- Applicative combination of zod field results: issues of both sides are
collected, in order, mirroring how `z.object` gathers issues across
fields. -/
def zapp {α β : Type} :
    Except (List ZIssue) (α → β) → Except (List ZIssue) α →
    Except (List ZIssue) β
  | .ok f, .ok a => .ok (f a)
  | .ok _, .error e => .error e
  | .error e, .ok _ => .error e
  | .error e, .error e' => .error (e ++ e')

/-- `z.string().min(1, msg)` on a required field. -/
def zReqString (row : RawRow) (k msg : String) : Except (List ZIssue) String :=
  match getv row k with
  | none => .error [⟨[k], "Required"⟩]
  | some none => .error [⟨[k], "Expected string, received null"⟩]
  | some (some s) => if 1 ≤ s.length then .ok s else .error [⟨[k], msg⟩]

/-- `z.string().optional()`. -/
def zOptString (row : RawRow) (k : String) :
    Except (List ZIssue) (Option String) :=
  match getv row k with
  | none => .ok none
  | some none => .error [⟨[k], "Expected string, received null"⟩]
  | some (some s) => .ok (some s)

/-- `z.string().email(msg).optional()`; the e-mail test itself is zod
internals, taken from the environment. -/
def zOptEmail (env : Env) (row : RawRow) (k msg : String) :
    Except (List ZIssue) (Option String) :=
  match getv row k with
  | none => .ok none
  | some none => .error [⟨[k], "Expected string, received null"⟩]
  | some (some s) => if env.emailOk s then .ok (some s) else .error [⟨[k], msg⟩]

/-- `z.enum([...]).default(dflt)`. -/
def zEnumDefault (row : RawRow) (k : String) (choices : List String)
    (dflt : String) : Except (List ZIssue) String :=
  match getv row k with
  | none => .ok dflt
  | some none => .error [⟨[k], "Invalid enum value, received null"⟩]
  | some (some s) =>
      if choices.contains s then .ok s
      else .error [⟨[k], "Invalid enum value"⟩]

/-- `z.union([z.string(), z.number()]).transform(numFix).default(_)` as
used for the clamped numeric fields: a missing field takes the default, a
null fails the union, and a string is converted with `Number` and fixed up
by `numFix` (which also receives `none` for NaN). -/
def zUnionNumTransform (row : RawRow) (k : String)
    (numFix : Option JNum → JNum) (dflt : JNum) : Except (List ZIssue) JNum :=
  match getv row k with
  | none => .ok dflt
  | some none => .error [⟨[k], "Invalid input"⟩]
  | some (some s) => .ok (numFix (jsNumber s))

/-- `val ? val.split(',').map(trim).filter(nonempty) : []`. -/
def splitTrimFilter (s : String) : List String :=
  if s = "" then []
  else ((sSplit s ',').map sTrim).filter (fun t => t ≠ "")

/-- `z.string().transform(comma split).optional()` (skills, dependencies,
requestedTaskIDs, requiredSkills). -/
def zOptCommaList (row : RawRow) (k : String) :
    Except (List ZIssue) (Option (List String)) :=
  match getv row k with
  | none => .ok none
  | some none => .error [⟨[k], "Expected string, received null"⟩]
  | some (some s) => .ok (some (splitTrimFilter s))

/-- The worker `availableSlots` transform: bracket-stripped comma split,
each token `parseInt`ed, NaN tokens silently dropped. -/
def parseAvailableSlots (s : String) : List Int :=
  if sTrim s = "" then []
  else
    let cleaned := stripBrackets s
    ((sSplit cleaned ',').map (fun t => jsParseInt (sTrim t))).filterMap id

def zOptAvailableSlots (row : RawRow) (k : String) :
    Except (List ZIssue) (Option (List Int)) :=
  match getv row k with
  | none => .ok none
  | some none => .error [⟨[k], "Expected string, received null"⟩]
  | some (some s) => .ok (some (parseAvailableSlots s))

/-- The task `preferredPhases` transform: bracket strip, then `start-end`
inclusive range expansion when both halves parse and `start ≤ end`, else a
comma split with NaN tokens dropped. -/
def parsePreferredPhases (s : String) : List Int :=
  if sTrim s = "" then []
  else
    let cleaned := sTrim (stripBrackets s)
    let commaFallback :=
      ((sSplit cleaned ',').map (fun t => jsParseInt (sTrim t))).filterMap id
    if sContainsChar cleaned '-' then
      let parts := (sSplit cleaned '-').map (fun t => jsParseInt (sTrim t))
      match parts.getD 0 none, parts.getD 1 none with
      | some a, some b =>
          if a ≤ b then (List.range (b - a + 1).toNat).map (fun i => a + i)
          else commaFallback
      | _, _ => commaFallback
    else commaFallback

def zOptPreferredPhases (row : RawRow) (k : String) :
    Except (List ZIssue) (Option (List Int)) :=
  match getv row k with
  | none => .ok none
  | some none => .error [⟨[k], "Expected string, received null"⟩]
  | some (some s) => .ok (some (parsePreferredPhases s))

/-- The JSON-valued transforms (`attributesJSON`, `metadata`,
`preferences`, `attributes`): blank input becomes the empty object, parse
failure adds the given custom issue.  The parsed object itself is modelled
by the raw text that produced it (nothing downstream reads inside it). -/
def zOptJson (env : Env) (row : RawRow) (k msg : String) :
    Except (List ZIssue) (Option String) :=
  match getv row k with
  | none => .ok none
  | some none => .error [⟨[k], "Expected string, received null"⟩]
  | some (some s) =>
      if sTrim s = "" then .ok (some "")
      else if env.jsonOk s then .ok (some s)
      else .error [⟨[k], msg⟩]

/-- `z.date().default(() => new Date())`: raw uploads only ever carry
strings or nulls, and zod does not coerce those to dates, so a present
value always fails while an absent one takes the default clock value. -/
def zDateDefaultNow (env : Env) (row : RawRow) (k : String) :
    Except (List ZIssue) Int :=
  match getv row k with
  | none => .ok env.nowMs
  | some none => .error [⟨[k], "Expected date, received null"⟩]
  | some (some _) => .error [⟨[k], "Expected date, received string"⟩]

/-- `z.date().optional()` under the same observation. -/
def zDateOptional (row : RawRow) (k : String) :
    Except (List ZIssue) (Option Int) :=
  match getv row k with
  | none => .ok none
  | some none => .error [⟨[k], "Expected date, received null"⟩]
  | some (some _) => .error [⟨[k], "Expected date, received string"⟩]

/-- `z.any().optional()`: passes the raw property through. -/
def zAnyOptional (row : RawRow) (k : String) :
    Except (List ZIssue) (Option JsVal) :=
  .ok (getv row k)

/-- The `normalizeNumber` helper of the worker/task schema transforms. -/
def normalizeNumber : Option JsVal → Option JNum
  | none => none
  | some none => none
  | some (some s) => if s = "" then none else jsNumber s

/-- `a ?? b` on raw property values (skips `undefined` and `null`). -/
def jsCoalesce : Option JsVal → Option JsVal → Option JsVal
  | some (some s), _ => some (some s)
  | _, b => b

/-- The coerced client entity (`ClientSchema` output). -/
structure Client where
  id : String
  name : String
  priorityLevel : JNum
  requestedTaskIDs : Option (List String)
  groupTag : Option String
  attributesJSON : Option String
  email : Option String
  phone : Option String
  address : Option String
  status : String
  metadata : Option String
deriving Repr, DecidableEq

/-- `ClientSchema.safeParse` on a raw row. -/
def clientSafeParse (env : Env) (row : RawRow) :
    Except (List ZIssue) Client :=
  let a0 := zapp (.ok Client.mk) (zReqString row "id" "ClientID is required")
  let a1 := zapp a0 (zReqString row "name" "ClientName is required")
  let a2 := zapp a1 (zUnionNumTransform row "priorityLevel"
    (fun n => match n with | none => 1 | some q => min (max q 1) 5) 1)
  let a3 := zapp a2 (zOptCommaList row "requestedTaskIDs")
  let a4 := zapp a3 (zOptString row "groupTag")
  let a5 := zapp a4 (zOptJson env row "attributesJSON"
    "Invalid JSON format in attributesJSON field")
  let a6 := zapp a5 (zOptEmail env row "email" "Invalid email address")
  let a7 := zapp a6 (zOptString row "phone")
  let a8 := zapp a7 (zOptString row "address")
  let a9 := zapp a8
    (zEnumDefault row "status" ["active", "inactive", "pending"] "active")
  zapp a9 (zOptJson env row "metadata" "Invalid JSON format in metadata field")

/-- The worker record as parsed by the `WorkerSchema` object stage, before
its `.transform` normalization. -/
structure WorkerPre where
  id : String
  name : String
  skills : Option (List String)
  availableSlots : Option (List Int)
  maxLoadPerPhase : JNum
  workerGroup : Option String
  qualificationLevel : JNum
  hourlyJNume : Option JsVal
  hourlyrate : Option JsVal
  availability : String
  maxHoursPerWeek : Option JsVal
  maxhoursperweek : Option JsVal
  capacity : Option JsVal
  status : String
  email : Option String
  preferences : Option String
deriving Repr, DecidableEq

/-- The coerced worker entity (`WorkerSchema` output after its
`.transform`). -/
structure Worker where
  id : String
  name : String
  email : Option String
  skills : Option (List String)
  availableSlots : Option (List Int)
  maxLoadPerPhase : JNum
  workerGroup : Option String
  qualificationLevel : JNum
  hourlyJNume : Option JNum
  availability : String
  maxHoursPerWeek : JNum
  status : String
  preferences : Option String
deriving Repr, DecidableEq

/-- The `.transform` at the end of `WorkerSchema`: field-alias resolution
and numeric normalization. -/
def workerTransform (d : WorkerPre) : Worker :=
  let hourlyJNumeValue := jsCoalesce d.hourlyJNume d.hourlyrate
  let maxHoursValue := jsCoalesce d.maxHoursPerWeek
    (jsCoalesce d.maxhoursperweek d.capacity)
  { id := d.id
    name := d.name
    email := d.email
    skills := d.skills
    availableSlots := d.availableSlots
    maxLoadPerPhase := d.maxLoadPerPhase
    workerGroup := d.workerGroup
    qualificationLevel := d.qualificationLevel
    hourlyJNume := normalizeNumber hourlyJNumeValue
    availability := d.availability
    maxHoursPerWeek :=
      match maxHoursValue with
      | some (some s) =>
          if s = "" then 40
          else
            match normalizeNumber (some (some s)) with
            | none => 40
            | some q => if q = 0 then 40 else q
      | _ => 40
    status := d.status
    preferences := d.preferences }

/-- `WorkerSchema.safeParse` on a raw row. -/
def workerSafeParse (env : Env) (row : RawRow) :
    Except (List ZIssue) Worker :=
  let a0 := zapp (.ok WorkerPre.mk)
    (zReqString row "id" "WorkerID is required")
  let a1 := zapp a0 (zReqString row "name" "WorkerName is required")
  let a2 := zapp a1 (zOptCommaList row "skills")
  let a3 := zapp a2 (zOptAvailableSlots row "availableSlots")
  let a4 := zapp a3 (zUnionNumTransform row "maxLoadPerPhase"
    (fun n => match n with | none => 8 | some q => max q 1) 8)
  let a5 := zapp a4 (zOptString row "workerGroup")
  let a6 := zapp a5 (zUnionNumTransform row "qualificationLevel"
    (fun n => match n with | none => 1 | some q => min (max q 1) 10) 1)
  let a7 := zapp a6 (zAnyOptional row "hourlyJNume")
  let a8 := zapp a7 (zAnyOptional row "hourlyrate")
  let a9 := zapp a8 (zEnumDefault row "availability"
    ["full-time", "part-time", "contract"] "full-time")
  let a10 := zapp a9 (zAnyOptional row "maxHoursPerWeek")
  let a11 := zapp a10 (zAnyOptional row "maxhoursperweek")
  let a12 := zapp a11 (zAnyOptional row "capacity")
  let a13 := zapp a12
    (zEnumDefault row "status" ["active", "inactive", "on-leave"] "active")
  let a14 := zapp a13 (zOptEmail env row "email" "Invalid email address")
  let a15 := zapp a14 (zOptJson env row "preferences"
    "Invalid JSON format in preferences field")
  a15.map workerTransform

/-- The task record as parsed by the `TaskSchema` object stage, before its
`.transform`. -/
structure TaskPre where
  id : String
  title : String
  category : Option String
  duration : JNum
  requiredSkills : Option (List String)
  preferredPhases : Option (List Int)
  maxConcurrent : JNum
  description : Option String
  status : String
  priority : String
  dueDate : Option String
  duedate : Option String
  assignedTo : Option String
  assignedto : Option String
  clientId : Option String
  clientid : Option String
  createdAt : Int
  createdat : Option Int
  estimatedHours : Option JsVal
  estimatedhours : Option JsVal
  actualHours : Option JsVal
  actualhours : Option JsVal
  dependencies : Option (List String)
  attributes : Option String
deriving Repr, DecidableEq

/-- The coerced task entity (`TaskSchema` output after `.transform` and
`.refine`). -/
structure Task where
  id : String
  title : String
  category : Option String
  duration : JNum
  requiredSkills : Option (List String)
  preferredPhases : Option (List Int)
  maxConcurrent : JNum
  description : Option String
  status : String
  priority : String
  dueDate : Option String
  assignedTo : Option String
  clientId : Option String
  createdAt : Int
  estimatedHours : Option JNum
  actualHours : Option JNum
  dependencies : Option (List String)
  attributes : Option String
deriving Repr, DecidableEq

/-- The `.transform` at the end of `TaskSchema`. -/
def taskTransform (d : TaskPre) : Task :=
  { id := d.id
    title := d.title
    category := d.category
    duration := d.duration
    requiredSkills := d.requiredSkills
    preferredPhases := d.preferredPhases
    maxConcurrent := d.maxConcurrent
    description := d.description
    status := d.status
    priority := d.priority
    dueDate := d.dueDate <|> d.duedate
    assignedTo := d.assignedTo <|> d.assignedto
    clientId := d.clientId <|> d.clientid
    createdAt := d.createdAt
    estimatedHours := normalizeNumber (jsCoalesce d.estimatedHours d.estimatedhours)
    actualHours := normalizeNumber (jsCoalesce d.actualHours d.actualhours)
    dependencies := d.dependencies
    attributes := d.attributes }

/-- The `.refine` at the end of `TaskSchema`: actual hours must not exceed
estimated hours when both are truthy. -/
def taskRefine (t : Task) : Except (List ZIssue) Task :=
  match t.actualHours, t.estimatedHours with
  | some a, some e =>
      if a ≠ 0 ∧ e ≠ 0 ∧ e < a then
        .error [⟨[], "Actual hours cannot exceed estimated hours"⟩]
      else .ok t
  | _, _ => .ok t

/-- `TaskSchema.safeParse` on a raw row. -/
def taskSafeParse (env : Env) (row : RawRow) :
    Except (List ZIssue) Task :=
  let a0 := zapp (.ok TaskPre.mk) (zReqString row "id" "TaskID is required")
  let a1 := zapp a0 (zReqString row "title" "TaskName is required")
  let a2 := zapp a1 (zOptString row "category")
  let a3 := zapp a2 (zUnionNumTransform row "duration"
    (fun n => match n with | none => 1 | some q => max q 1) 1)
  let a4 := zapp a3 (zOptCommaList row "requiredSkills")
  let a5 := zapp a4 (zOptPreferredPhases row "preferredPhases")
  let a6 := zapp a5 (zUnionNumTransform row "maxConcurrent"
    (fun n => match n with | none => 1 | some q => max q 1) 1)
  let a7 := zapp a6 (zOptString row "description")
  let a8 := zapp a7 (zEnumDefault row "status"
    ["pending", "in-progress", "completed", "cancelled"] "pending")
  let a9 := zapp a8
    (zEnumDefault row "priority" ["low", "medium", "high", "urgent"] "medium")
  let a10 := zapp a9 (zOptString row "dueDate")
  let a11 := zapp a10 (zOptString row "duedate")
  let a12 := zapp a11 (zOptString row "assignedTo")
  let a13 := zapp a12 (zOptString row "assignedto")
  let a14 := zapp a13 (zOptString row "clientId")
  let a15 := zapp a14 (zOptString row "clientid")
  let a16 := zapp a15 (zDateDefaultNow env row "createdAt")
  let a17 := zapp a16 (zDateOptional row "createdat")
  let a18 := zapp a17 (zAnyOptional row "estimatedHours")
  let a19 := zapp a18 (zAnyOptional row "estimatedhours")
  let a20 := zapp a19 (zAnyOptional row "actualHours")
  let a21 := zapp a20 (zAnyOptional row "actualhours")
  let a22 := zapp a21 (zOptCommaList row "dependencies")
  let a23 := zapp a22 (zOptJson env row "attributes"
    "Invalid JSON format in attributes field")
  match a23 with
  | .error e => .error e
  | .ok pre => taskRefine (taskTransform pre)

inductive DataType | clients | workers | tasks
deriving Repr, DecidableEq

/-- One element of a `ValidationResult`'s `data` array: a coerced entity
(for a row the schema accepted) or the original raw row, id-stamped (for a
row it rejected). -/
inductive ParsedRow
  | cl (c : Client)
  | wk (w : Worker)
  | tk (t : Task)
deriving Repr, DecidableEq

inductive DataRow
  | parsed (p : ParsedRow)
  | unparsed (r : RawRow)
deriving Repr, DecidableEq

/-- `getSchema(dataType).safeParse(row)`, dispatching like
`FileParser.getSchema`. -/
def schemaSafeParse (dt : DataType) (env : Env) (row : RawRow) :
    Except (List ZIssue) ParsedRow :=
  match dt with
  | .clients => (clientSafeParse env row).map ParsedRow.cl
  | .workers => (workerSafeParse env row).map ParsedRow.wk
  | .tasks => (taskSafeParse env row).map ParsedRow.tk

def ParsedRow.id : ParsedRow → String
  | .cl c => c.id
  | .wk w => w.id
  | .tk t => t.id

def ParsedRow.withId (p : ParsedRow) (i : String) : ParsedRow :=
  match p with
  | .cl c => .cl { c with id := i }
  | .wk w => .wk { w with id := i }
  | .tk t => .tk { t with id := i }

/-- `FileParser.validateMissingRequiredColumns`. -/
def requiredColumns : DataType → List String
  | .clients => ["ClientID", "ClientName", "PriorityLevel"]
  | .workers => ["WorkerID", "WorkerName", "Skills", "AvailableSlots"]
  | .tasks => ["TaskID", "TaskName", "Duration", "RequiredSkills"]

/-- Whether a raw header satisfies a required column name: exact,
case-insensitive, or whitespace-insensitive comparison. -/
def headerMatches (h col : String) : Bool :=
  h == col || sToLower h == sToLower col ||
    stripWhitespace (sToLower h) == stripWhitespace (sToLower col)

def validateMissingRequiredColumns (data : List RawRow) (dt : DataType) :
    List ValidationError :=
  if data.length = 0 then []
  else
    let headers := (data.headI).map (·.1)
    (requiredColumns dt).flatMap (fun col =>
      if headers.any (fun h => headerMatches h col) then []
      else
        [{ row := 0, field := col,
           message := "Missing required column: " ++ col,
           value := some ("Available columns: " ++
             String.intercalate ", " headers) }])

/-- The id used by the duplicate-ID pass:
`String(row.id || row.ClientID || row.WorkerID || row.TaskID || '').trim()`. -/
def dupId (row : RawRow) : String :=
  let pick (k : String) (rest : JsVal) : JsVal :=
    match getv row k with
    | some (some s) => if s ≠ "" then some s else rest
    | _ => rest
  let picked := pick "id" (pick "ClientID" (pick "WorkerID"
    (pick "TaskID" (some ""))))
  sTrim (picked.getD "")

/-- Insertion-ordered multimap append, modelling the `Map<string, number[]>`
accumulation of the duplicate-ID pass: the existing entry is extended in
place (keys are unique by construction), a new key goes to the end. -/
def addRowToIdCounts : List (String × List Nat) → String → Nat →
    List (String × List Nat)
  | [], i, r => [(i, [r])]
  | (k, rs) :: rest, i, r =>
      if k = i then (k, rs ++ [r]) :: rest
      else (k, rs) :: addRowToIdCounts rest i r

def buildIdCounts (data : List RawRow) : List (String × List Nat) :=
  data.enum.foldl (fun m p =>
    let i := dupId p.2
    if i ≠ "" then addRowToIdCounts m i (p.1 + 1) else m) []

def duplicateIdErrors (data : List RawRow) : List ValidationError :=
  (buildIdCounts data).flatMap (fun p =>
    if 1 < p.2.length then
      p.2.map (fun r =>
        { row := r, field := "id",
          message := "Duplicate ID \"" ++ p.1 ++ "\" found in rows: " ++
            String.intercalate ", " (p.2.map toString),
          value := some p.1 })
    else [])

/-- `row.x !== null && row.x !== undefined && row.x !== ''`. -/
def presentNonEmpty : Option JsVal → Option String
  | some (some s) => if s = "" then none else some s
  | _ => none

/-- JS `a || b` on raw property values. -/
def truthyOr (a b : Option JsVal) : Option JsVal :=
  if truthy a then a else b

/-- JS template interpolation of a raw property value. -/
def interp : Option JsVal → String
  | none => "undefined"
  | some none => "null"
  | some (some s) => s

/-- `FileParser.validateOutOfRangeValues` on one raw row. -/
def outOfRangeRowErrors (env : Env) (dt : DataType) (i : Nat)
    (row : RawRow) : List ValidationError :=
  let rowNumber := i + 1
  match dt with
  | .workers =>
      let hrErrs :=
        match presentNonEmpty (getv row "hourlyJNume") with
        | none => []
        | some s =>
            match jsNumber s with
            | none => []
            | some hr =>
                if hr < 0 then
                  [{ row := rowNumber, field := "hourlyJNume",
                     message := "Hourly rate cannot be negative (ID: " ++
                       interp (getv row "id") ++ ")",
                     value := some s }]
                else if 1000 < hr then
                  [{ row := rowNumber, field := "hourlyJNume",
                     message :=
                       "Hourly rate seems unreasonably high (>$1000/hour)",
                     value := some s }]
                else []
      let capacityField :=
        truthyOr (getv row "capacity")
          (truthyOr (getv row "maxHoursPerWeek") (getv row "maxLoadPerPhase"))
      let capErrs :=
        match presentNonEmpty capacityField with
        | none => []
        | some s =>
            match jsNumber s with
            | none => []
            | some mh =>
                if mh < 1 then
                  [{ row := rowNumber, field := "maxLoadPerPhase",
                     message := "Max hours per week must be at least 1",
                     value := some s }]
                else if 168 < mh then
                  [{ row := rowNumber, field := "maxLoadPerPhase",
                     message :=
                       "Max hours per week cannot exceed 168 hours (24×7)",
                     value := some s }]
                else []
      hrErrs ++ capErrs
  | .tasks =>
      let dueErrs :=
        match getv row "dueDate" with
        | some (some s) =>
            if s = "" then []
            else
              match env.dateParse s with
              | none => []
              | some t =>
                  if t < env.pastLimitMs then
                    [{ row := rowNumber, field := "dueDate",
                       message :=
                         "Due date is too far in the past (before 2000)",
                       value := some s }]
                  else if env.futureLimitMs < t then
                    [{ row := rowNumber, field := "dueDate",
                       message :=
                         "Due date is too far in the future (>5 years)",
                       value := some s }]
                  else []
        | _ => []
      let hoursErrs (k negMsg highMsg : String) :=
        match presentNonEmpty (getv row k) with
        | none => []
        | some s =>
            match jsNumber s with
            | none => []
            | some h =>
                if h < 0 then
                  [{ row := rowNumber, field := k, message := negMsg,
                     value := some s }]
                else if 10000 < h then
                  [{ row := rowNumber, field := k, message := highMsg,
                     value := some s }]
                else []
      dueErrs ++
        hoursErrs "estimatedHours" "Estimated hours cannot be negative"
          "Estimated hours seems unreasonably high (>10,000 hours)" ++
        hoursErrs "actualHours" "Actual hours cannot be negative"
          "Actual hours seems unreasonably high (>10,000 hours)"
  | .clients => []

def validateOutOfRangeValues (env : Env) (data : List RawRow)
    (dt : DataType) : List ValidationError :=
  data.enum.flatMap (fun p => outOfRangeRowErrors env dt p.1 p.2)

/-- `isNaN(start) || isNaN(end) || start > end || start < 1` on the two
parsed halves of a phase range. -/
def badPhaseRange : Option Int → Option Int → Bool
  | some a, some b => decide (b < a) || decide (a < 1)
  | _, _ => true

/-- `FileParser.validateMalformedLists` on one raw row. -/
def malformedListRowErrors (dt : DataType) (i : Nat) (row : RawRow) :
    List ValidationError :=
  let rowNumber := i + 1
  match dt with
  | .workers =>
      match getv row "availableSlots" with
      | some (some s) =>
          if s = "" then []
          else
            let cleaned := stripBrackets s
            let slots := (sSplit cleaned ',').map
              (fun t => jsParseInt (sTrim t))
            if slots.any (fun o => o.isNone || o.any (fun n => n < 1)) then
              [{ row := rowNumber, field := "availableSlots",
                 message :=
                   "AvailableSlots must contain valid phase numbers (≥1)",
                 value := some s }]
            else []
      | _ => []
  | .tasks =>
      match getv row "preferredPhases" with
      | some (some s) =>
          if s = "" then []
          else
            let cleaned := sTrim (stripBrackets s)
            if sContainsChar cleaned '-' then
              let parts := (sSplit cleaned '-').map
                (fun t => jsParseInt (sTrim t))
              if badPhaseRange (parts.getD 0 none) (parts.getD 1 none) then
                [{ row := rowNumber, field := "preferredPhases",
                   message := "Invalid phase range format or values",
                   value := some s }]
              else []
            else
              let phases := (sSplit cleaned ',').map
                (fun t => jsParseInt (sTrim t))
              if phases.any (fun o => o.isNone || o.any (fun n => n < 1)) then
                [{ row := rowNumber, field := "preferredPhases",
                   message :=
                     "PreferredPhases must contain valid phase numbers (≥1)",
                   value := some s }]
              else []
      | _ => []
  | .clients => []

def validateMalformedLists (data : List RawRow) (dt : DataType) :
    List ValidationError :=
  data.enum.flatMap (fun p => malformedListRowErrors dt p.1 p.2)

/-- `FileParser.validatePriorityLevels` on one raw row (clients only). -/
def priorityLevelRowErrors (i : Nat) (row : RawRow) :
    List ValidationError :=
  match getv row "priorityLevel" with
  | some (some s) =>
      match jsNumber s with
      | none =>
          [{ row := i + 1, field := "priorityLevel",
             message := "PriorityLevel must be between 1 and 5",
             value := some s }]
      | some q =>
          if q < 1 ∨ 5 < q then
            [{ row := i + 1, field := "priorityLevel",
               message := "PriorityLevel must be between 1 and 5",
               value := some s }]
          else []
  | _ => []

def validatePriorityLevels (data : List RawRow) : List ValidationError :=
  data.enum.flatMap (fun p => priorityLevelRowErrors p.1 p.2)

/-- `FileParser.validateTaskDuration` on one raw row (tasks only). -/
def taskDurationRowErrors (i : Nat) (row : RawRow) : List ValidationError :=
  match getv row "duration" with
  | some (some s) =>
      match jsNumber s with
      | none =>
          [{ row := i + 1, field := "duration",
             message := "Duration must be ≥ 1 phase", value := some s }]
      | some q =>
          if q < 1 then
            [{ row := i + 1, field := "duration",
               message := "Duration must be ≥ 1 phase", value := some s }]
          else []
  | _ => []

def validateTaskDuration (data : List RawRow) : List ValidationError :=
  data.enum.flatMap (fun p => taskDurationRowErrors p.1 p.2)

/-- The synthesized id `temp-${index}-${Date.now()}`. -/
def tempId (env : Env) (i : Nat) : String :=
  "temp-" ++ toString i ++ "-" ++ toString env.nowMs

/-- The schema-validation loop of `validateData`, producing in order the
zod errors, the `validData` array and the full `data` array for one row. -/
def schemaRowResult (dt : DataType) (env : Env) (i : Nat) (row : RawRow) :
    List ValidationError × List DataRow × DataRow :=
  match schemaSafeParse dt env row with
  | .ok e =>
      let processed :=
        if e.id = "" then e.withId (tempId env i) else e
      ([], [DataRow.parsed e], DataRow.parsed processed)
  | .error issues =>
      let idVal : JsVal :=
        match getv row "id" with
        | some (some s) => if s ≠ "" then some s else some (tempId env i)
        | _ => some (tempId env i)
      let errs := issues.map (fun iss =>
        { row := i + 1
          field := String.intercalate "." iss.path
          message := iss.message
          value := some (match iss.path with
            | [] => ""
            | k :: _ =>
                match getv row k with
                | some (some s) => if s ≠ "" then s else ""
                | _ => "") })
      (errs, [], DataRow.unparsed (setKey row "id" idVal))

/-- `FileParser.validateData`. -/
def validateData (data : List RawRow) (dt : DataType) (env : Env) :
    ValidationResult DataRow :=
  if data.length = 0 then
    { isValid := true, errors := [], data := [], validData := some [],
      summary := { totalRows := 0, validRows := 0, invalidRows := 0 } }
  else
    let missingColumnErrors := validateMissingRequiredColumns data dt
    let dupErrors := duplicateIdErrors data
    let schemaResults := data.enum.map
      (fun p => schemaRowResult dt env p.1 p.2)
    let schemaErrors := schemaResults.flatMap (·.1)
    let validData := schemaResults.flatMap (·.2.1)
    let allData := schemaResults.map (·.2.2)
    let rangeErrors := validateOutOfRangeValues env data dt
    let malformedListErrors := validateMalformedLists data dt
    let priorityErrors :=
      if dt = .clients then validatePriorityLevels data else []
    let durationErrors :=
      if dt = .tasks then validateTaskDuration data else []
    let errors := missingColumnErrors ++ dupErrors ++ schemaErrors ++
      rangeErrors ++ malformedListErrors ++ priorityErrors ++ durationErrors
    let dataRowErrors := errors.filter (fun e => 0 < e.row)
    let uniqueInvalidRows := ((dataRowErrors.map (·.row)).dedup).length
    { isValid := errors.length = 0
      errors := errors
      data := allData
      validData := some validData
      summary :=
        { totalRows := data.length
          validRows := (data.length : Int) - uniqueInvalidRows
          invalidRows := uniqueInvalidRows } }

/-! ### Cross-entity validators

`validateCrossReferences`, `validateCircularDependencies`,
`validateSkillCoverage` and `validateWorkerCapacity` take
`Record<string, unknown>[]` arguments and probe the dynamic type of each
property.  Their inputs are modelled by record types carrying exactly the
shapes the functions distinguish; a property that can only ever be an
array or absent (after coercion) is an `Option`, and `dependencies`, whose
string/array distinction the code tests explicitly, is a dedicated sum. -/

/-- A `dependencies` property: absent (or any non-string, which the code
treats identically), a raw comma string, or a coerced array. -/
inductive JsDeps
  | undef
  | str (s : String)
  | arr (l : List String)
deriving Repr, DecidableEq

structure RClient where
  id : String
deriving Repr, DecidableEq

structure RWorker where
  id : String
  skills : Option (List String)
  availableSlots : Option (List Int)
  maxLoadPerPhase : Option JNum
deriving Repr, DecidableEq

structure RTask where
  id : String
  assignedTo : Option String
  clientId : Option String
  dependencies : JsDeps
  duration : Option JNum
  maxConcurrent : Option JNum
  preferredPhases : Option (List Int)
  requiredSkills : Option (List String)
deriving Repr, DecidableEq

/-- The record view `{...c}` of a coerced client, as the store passes it. -/
def Client.toR (c : Client) : RClient := ⟨c.id⟩

def Worker.toR (w : Worker) : RWorker :=
  { id := w.id, skills := w.skills, availableSlots := w.availableSlots,
    maxLoadPerPhase := some w.maxLoadPerPhase }

def Task.toR (t : Task) : RTask :=
  { id := t.id, assignedTo := t.assignedTo, clientId := t.clientId,
    dependencies :=
      match t.dependencies with
      | none => .undef
      | some l => .arr l,
    duration := some t.duration, maxConcurrent := some t.maxConcurrent,
    preferredPhases := t.preferredPhases,
    requiredSkills := t.requiredSkills }

/-- JS `new Set(xs)` materialised as a list: first occurrences, in
insertion order. -/
def jsSetList (xs : List String) : List String :=
  xs.foldl (fun acc x => if acc.contains x then acc else acc ++ [x]) []

/-- JS `Set.add`. -/
def jsSetAdd (l : List String) (x : String) : List String :=
  if l.contains x then l else l ++ [x]

/-- JS `Set.delete`. -/
def jsSetRemove (l : List String) (x : String) : List String :=
  l.filter (fun y => y ≠ x)

/-- JS `Map.get`. -/
def jsMapGet {β : Type} (m : List (String × β)) (k : String) : Option β :=
  (m.find? (fun p => p.1 == k)).map (·.2)

/-- JS `Map.set`: overwrites in place (keys are unique by construction),
appends new keys. -/
def jsMapSet {β : Type} : List (String × β) → String → β →
    List (String × β)
  | [], k, v => [(k, v)]
  | (k', v') :: rest, k, v =>
      if k' = k then (k', v) :: rest
      else (k', v') :: jsMapSet rest k v

/-- `FileParser.validateCrossReferences`. -/
def validateCrossReferences (clients : List RClient)
    (workers : List RWorker) (tasks : List RTask) : List ValidationError :=
  let clientIds := (clients.map (·.id)).filter (fun i => i ≠ "")
  let workerIds := (workers.map (·.id)).filter (fun i => i ≠ "")
  let taskIds := (tasks.map (·.id)).filter (fun i => i ≠ "")
  tasks.enum.flatMap (fun p =>
    let rowNumber := p.1 + 1
    let task := p.2
    let assignedErrs :=
      match task.assignedTo with
      | some s =>
          if s ≠ "" ∧ sTrim s ≠ "" ∧ ¬ workerIds.contains (sTrim s) then
            [{ row := rowNumber, field := "assignedTo",
               message := "Worker ID \"" ++ sTrim s ++
                 "\" not found in workers data",
               value := some (sTrim s) }]
          else []
      | none => []
    let clientErrs :=
      match task.clientId with
      | some s =>
          if s ≠ "" ∧ sTrim s ≠ "" ∧ ¬ clientIds.contains (sTrim s) then
            [{ row := rowNumber, field := "clientId",
               message := "Client ID \"" ++ sTrim s ++
                 "\" not found in clients data",
               value := some (sTrim s) }]
          else []
      | none => []
    let depErrs :=
      match task.dependencies with
      | .str s =>
          (((sSplit s ',').map sTrim).filter (fun d => d ≠ "")).flatMap
            (fun depId =>
              if ¬ taskIds.contains depId then
                [{ row := rowNumber, field := "dependencies",
                   message := "Dependency task ID \"" ++ depId ++
                     "\" not found in tasks data",
                   value := some depId }]
              else [])
      | _ => []
    assignedErrs ++ clientErrs ++ depErrs)

/-- The mutable state of the circular-dependency DFS. -/
structure DfsState where
  visited : List String
  stack : List String
  errors : List ValidationError
deriving Repr, DecidableEq

/-- Position scan of JS `Array.indexOf`. -/
def jsIndexOfAux (x : String) : List String → Nat → Option Nat
  | [], _ => none
  | y :: rest, i => if y = x then some i else jsIndexOfAux x rest (i + 1)

/-- JS `Array.indexOf`. -/
def jsIndexOf (l : List String) (x : String) : Int :=
  match jsIndexOfAux x l 0 with
  | some i => (i : Int)
  | none => -1

/-- JS `Array.slice(i)` including negative start indices. -/
def jsSliceFrom {α : Type} (l : List α) (i : Int) : List α :=
  if i < 0 then l.drop (((l.length : Int) + i).toNat)
  else l.drop i.toNat

/-- The error batch reported when a cycle is found. -/
def cycleErrors (rowMap : List (String × Nat)) (cycleTasks : List String) :
    List ValidationError :=
  let chain := String.intercalate " → " cycleTasks
  cycleTasks.map (fun c =>
    { row := (jsMapGet rowMap c).getD 0, field := "dependencies",
      message := "Circular dependency detected: " ++ chain,
      value := some chain })

/-- The recursive `hasCycle` closure of `validateCircularDependencies`.
The JS recursion depth is bounded by the number of unvisited nodes, so a
fuel argument (structural, so that the kernel can evaluate the search)
makes the embedding total; the dependency loop with its early
`return true` is the guarded fold, which calls `hasCycle` on the
remaining dependencies only while no cycle has been found, exactly like
the early return. -/
def hasCycle (g : List (String × List String))
    (rowMap : List (String × Nat)) :
    Nat → String → List String → DfsState → Bool × DfsState
  | 0, _, _, st => (false, st)
  | fuel + 1, taskId, path, st =>
      if st.stack.contains taskId then
        let cycleStart := jsIndexOf path taskId
        let cycleTasks := jsSliceFrom path cycleStart ++ [taskId]
        (true, { st with errors := st.errors ++ cycleErrors rowMap cycleTasks })
      else if st.visited.contains taskId then (false, st)
      else
        let st1 : DfsState :=
          { st with visited := jsSetAdd st.visited taskId,
                    stack := jsSetAdd st.stack taskId }
        let deps := (jsMapGet g taskId).getD []
        let (b, st2) := deps.foldl
          (fun acc d =>
            if acc.1 then acc
            else hasCycle g rowMap fuel d (path ++ [taskId]) acc.2)
          (false, st1)
        if b then (true, st2)
        else (false, { st2 with stack := jsSetRemove st2.stack taskId })

/-- The dependency graph of `validateCircularDependencies`: each task id
maps to its comma-split dependencies restricted to existing ids. -/
def buildDependencyGraph (taskIds : List String) (tasks : List RTask) :
    List (String × List String) :=
  tasks.foldl (fun m t =>
    match t.dependencies with
    | .str s =>
        jsMapSet m t.id
          (((sSplit s ',').map sTrim).filter
            (fun d => d ≠ "" ∧ taskIds.contains d))
    | _ => jsMapSet m t.id []) []

def buildTaskRowMap (tasks : List RTask) : List (String × Nat) :=
  tasks.enum.foldl (fun m p => jsMapSet m p.2.id (p.1 + 1)) []

/-- The `for (const taskId of taskIds)` driver loop. -/
def cycleSearch (g : List (String × List String))
    (rowMap : List (String × Nat)) (fuel : Nat) (ids : List String)
    (st : DfsState) : DfsState :=
  ids.foldl (fun st taskId =>
    if st.visited.contains taskId then st
    else (hasCycle g rowMap fuel taskId [] st).2) st

/-- The deduplicated non-empty task-id set the search iterates over. -/
def taskIdSet (tasks : List RTask) : List String :=
  jsSetList ((tasks.map (·.id)).filter (fun i => i ≠ ""))

/-- `FileParser.validateCircularDependencies`. -/
def validateCircularDependencies (tasks : List RTask) :
    List ValidationError :=
  let taskIds := taskIdSet tasks
  let g := buildDependencyGraph taskIds tasks
  let rowMap := buildTaskRowMap tasks
  (cycleSearch g rowMap (tasks.length + 1) taskIds ⟨[], [], []⟩).errors

/-- `FileParser.validateSkillCoverage`. -/
def validateSkillCoverage (workers : List RWorker) (tasks : List RTask) :
    List ValidationError :=
  let allWorkerSkills := workers.flatMap (fun w =>
    (w.skills.getD []).map (fun s => sTrim (sToLower s)))
  tasks.enum.flatMap (fun p =>
    (p.2.requiredSkills.getD []).flatMap (fun skill =>
      if ¬ allWorkerSkills.contains (sTrim (sToLower skill)) then
        [{ row := p.1 + 1, field := "requiredSkills",
           message := "Required skill \"" ++ skill ++
             "\" not found in any worker",
           value := some skill }]
      else []))

/-- JS `Map.get`/`Map.set` with integer phase keys. -/
def phaseGet (m : List (Int × JNum)) (k : Int) : Option JNum :=
  (m.find? (fun p => p.1 == k)).map (·.2)

def phaseSet : List (Int × JNum) → Int → JNum → List (Int × JNum)
  | [], k, v => [(k, v)]
  | (k', v') :: rest, k, v =>
      if k' = k then (k', v) :: rest
      else (k', v') :: phaseSet rest k v

/-- `Number(task.maxConcurrent) || 1`. -/
def effMaxConcurrent (t : RTask) : JNum :=
  match t.maxConcurrent with
  | some q => if q = 0 then 1 else q
  | none => 1

/-- `Number(worker.maxLoadPerPhase) || 8`. -/
def effMaxLoad (w : RWorker) : JNum :=
  match w.maxLoadPerPhase with
  | some q => if q = 0 then 8 else q
  | none => 8

/-- One task's pass of `validateWorkerCapacity`'s first loop (its body
runs only when `preferredPhases` and a truthy `duration` are present). -/
def reqStep (m : List (Int × JNum)) (t : RTask) : List (Int × JNum) :=
  match t.preferredPhases, t.duration with
  | some phases, some d =>
      if d = 0 then m
      else
        phases.foldl (fun m phase =>
          phaseSet m phase ((phaseGet m phase).getD 0 +
            d * effMaxConcurrent t)) m
  | _, _ => m

/-- The required-capacity map of `validateWorkerCapacity`. -/
def requiredCapacityMap (tasks : List RTask) : List (Int × JNum) :=
  tasks.foldl reqStep []

/-- One worker's pass of `validateWorkerCapacity`'s second loop. -/
def availStep (m : List (Int × JNum)) (w : RWorker) : List (Int × JNum) :=
  match w.availableSlots with
  | some slots =>
      slots.foldl (fun m phase =>
        phaseSet m phase ((phaseGet m phase).getD 0 + effMaxLoad w)) m
  | none => m

/-- The available-capacity map of `validateWorkerCapacity`. -/
def availableCapacityMap (workers : List RWorker) : List (Int × JNum) :=
  workers.foldl availStep []

/-- The worker-capacity error the code emits for a saturated phase. -/
def capacityError (phase : Int) (required available : JNum) :
    ValidationError :=
  { row := 0, field := "phaseCapacity",
    message := "Phase " ++ toString phase ++ " is oversaturated: requires "
      ++ ratToJsString required ++ " slots, only " ++
      ratToJsString available ++ " available",
    value := some ("Phase " ++ toString phase ++ ": " ++
      ratToJsString required ++ "/" ++ ratToJsString available) }

/-- `FileParser.validateWorkerCapacity`. -/
def validateWorkerCapacity (workers : List RWorker) (tasks : List RTask) :
    List ValidationError :=
  let phaseCapacity := requiredCapacityMap tasks
  let workerCapacity := availableCapacityMap workers
  phaseCapacity.flatMap (fun p =>
    let required := p.2
    let available := (phaseGet workerCapacity p.1).getD 0
    if available < required then [capacityError p.1 required available]
    else [])

/-! ### The zustand data store (`src/store/data-store.ts`) -/

structure StoreState where
  clients : List Client
  workers : List Worker
  tasks : List Task
  isUploading : Bool
  uploadProgress : JNum
  clientValidationResults : Option (ValidationResult Client)
  workerValidationResults : Option (ValidationResult Worker)
  taskValidationResults : Option (ValidationResult Task)
deriving Repr, DecidableEq

/-- `Partial<Client>` for `updateClient`: a present field overrides. -/
structure ClientUpdates where
  id : Option String := none
  name : Option String := none
  priorityLevel : Option JNum := none
  requestedTaskIDs : Option (Option (List String)) := none
  groupTag : Option (Option String) := none
  attributesJSON : Option (Option String) := none
  email : Option (Option String) := none
  phone : Option (Option String) := none
  address : Option (Option String) := none
  status : Option String := none
  metadata : Option (Option String) := none
deriving Repr, DecidableEq

/-- `{...client, ...updates}`. -/
def Client.merge (c : Client) (u : ClientUpdates) : Client :=
  { id := u.id.getD c.id
    name := u.name.getD c.name
    priorityLevel := u.priorityLevel.getD c.priorityLevel
    requestedTaskIDs := u.requestedTaskIDs.getD c.requestedTaskIDs
    groupTag := u.groupTag.getD c.groupTag
    attributesJSON := u.attributesJSON.getD c.attributesJSON
    email := u.email.getD c.email
    phone := u.phone.getD c.phone
    address := u.address.getD c.address
    status := u.status.getD c.status
    metadata := u.metadata.getD c.metadata }

structure WorkerUpdates where
  id : Option String := none
  name : Option String := none
  email : Option (Option String) := none
  skills : Option (Option (List String)) := none
  availableSlots : Option (Option (List Int)) := none
  maxLoadPerPhase : Option JNum := none
  workerGroup : Option (Option String) := none
  qualificationLevel : Option JNum := none
  hourlyJNume : Option (Option JNum) := none
  availability : Option String := none
  maxHoursPerWeek : Option JNum := none
  status : Option String := none
  preferences : Option (Option String) := none
deriving Repr, DecidableEq

def Worker.merge (w : Worker) (u : WorkerUpdates) : Worker :=
  { id := u.id.getD w.id
    name := u.name.getD w.name
    email := u.email.getD w.email
    skills := u.skills.getD w.skills
    availableSlots := u.availableSlots.getD w.availableSlots
    maxLoadPerPhase := u.maxLoadPerPhase.getD w.maxLoadPerPhase
    workerGroup := u.workerGroup.getD w.workerGroup
    qualificationLevel := u.qualificationLevel.getD w.qualificationLevel
    hourlyJNume := u.hourlyJNume.getD w.hourlyJNume
    availability := u.availability.getD w.availability
    maxHoursPerWeek := u.maxHoursPerWeek.getD w.maxHoursPerWeek
    status := u.status.getD w.status
    preferences := u.preferences.getD w.preferences }

structure TaskUpdates where
  id : Option String := none
  title : Option String := none
  category : Option (Option String) := none
  duration : Option JNum := none
  requiredSkills : Option (Option (List String)) := none
  preferredPhases : Option (Option (List Int)) := none
  maxConcurrent : Option JNum := none
  description : Option (Option String) := none
  status : Option String := none
  priority : Option String := none
  dueDate : Option (Option String) := none
  assignedTo : Option (Option String) := none
  clientId : Option (Option String) := none
  createdAt : Option Int := none
  estimatedHours : Option (Option JNum) := none
  actualHours : Option (Option JNum) := none
  dependencies : Option (Option (List String)) := none
  attributes : Option (Option String) := none
deriving Repr, DecidableEq

def Task.merge (t : Task) (u : TaskUpdates) : Task :=
  { id := u.id.getD t.id
    title := u.title.getD t.title
    category := u.category.getD t.category
    duration := u.duration.getD t.duration
    requiredSkills := u.requiredSkills.getD t.requiredSkills
    preferredPhases := u.preferredPhases.getD t.preferredPhases
    maxConcurrent := u.maxConcurrent.getD t.maxConcurrent
    description := u.description.getD t.description
    status := u.status.getD t.status
    priority := u.priority.getD t.priority
    dueDate := u.dueDate.getD t.dueDate
    assignedTo := u.assignedTo.getD t.assignedTo
    clientId := u.clientId.getD t.clientId
    createdAt := u.createdAt.getD t.createdAt
    estimatedHours := u.estimatedHours.getD t.estimatedHours
    actualHours := u.actualHours.getD t.actualHours
    dependencies := u.dependencies.getD t.dependencies
    attributes := u.attributes.getD t.attributes }

/-- The `updateClient` store action. -/
def updateClient (st : StoreState) (id : String) (u : ClientUpdates) :
    StoreState :=
  { st with clients := st.clients.map (fun c =>
      if c.id = id then c.merge u else c) }

/-- The `updateWorker` store action. -/
def updateWorker (st : StoreState) (id : String) (u : WorkerUpdates) :
    StoreState :=
  { st with workers := st.workers.map (fun w =>
      if w.id = id then w.merge u else w) }

/-- The `updateTask` store action. -/
def updateTask (st : StoreState) (id : String) (u : TaskUpdates) :
    StoreState :=
  { st with tasks := st.tasks.map (fun t =>
      if t.id = id then t.merge u else t) }

/-- The `validateCrossReferences` store action: runs the four cross-entity
validators and, when they produced anything, merges with the previously
stored task errors and rebuilds the task summary from the merged error
count. -/
def storeValidateCrossReferences (st : StoreState) : StoreState :=
  let crossRefErrors := validateCrossReferences (st.clients.map Client.toR)
    (st.workers.map Worker.toR) (st.tasks.map Task.toR)
  let circularDepErrors := validateCircularDependencies
    (st.tasks.map Task.toR)
  let skillCoverageErrors := validateSkillCoverage
    (st.workers.map Worker.toR) (st.tasks.map Task.toR)
  let capacityErrors := validateWorkerCapacity (st.workers.map Worker.toR)
    (st.tasks.map Task.toR)
  let allNewErrors := crossRefErrors ++ circularDepErrors ++
    skillCoverageErrors ++ capacityErrors
  if 0 < allNewErrors.length then
    let existingErrors :=
      (st.taskValidationResults.map (·.errors)).getD []
    let allErrors := existingErrors ++ allNewErrors
    let updatedValidation : ValidationResult Task :=
      { isValid := allErrors.length = 0
        errors := allErrors
        data := st.tasks
        validData := some
          ((st.taskValidationResults.bind (·.validData)).getD [])
        summary :=
          { totalRows := st.tasks.length
            validRows := (st.tasks.length : Int) - allErrors.length
            invalidRows := allErrors.length } }
    { st with taskValidationResults := some updatedValidation }
  else st

/-! ### AI header mapping (`src/lib/ai-service.ts`) -/

structure HeaderField where
  field : String
  aliases : List String
deriving Repr, DecidableEq

inductive EntityType | client | worker | task
deriving Repr, DecidableEq

/-- `AIService.getExpectedHeaders`. -/
def getExpectedHeaders : EntityType → List HeaderField
  | .client =>
      [⟨"id", ["client_id", "clientid", "identifier", "client-id"]⟩,
       ⟨"name", ["client_name", "clientname", "full_name", "fullname"]⟩,
       ⟨"email", ["email_address", "emailaddress", "e_mail", "e-mail"]⟩,
       ⟨"phone", ["phone_number", "phonenumber", "telephone", "mobile"]⟩,
       ⟨"status", ["client_status", "state", "condition"]⟩,
       ⟨"address", ["location", "address_line", "full_address"]⟩,
       ⟨"metadata", ["meta", "additional_info", "custom_data", "extras"]⟩]
  | .worker =>
      [⟨"id", ["worker_id", "workerid", "employee_id", "emp_id"]⟩,
       ⟨"name", ["worker_name", "workername", "full_name", "employee_name"]⟩,
       ⟨"email", ["email_address", "work_email", "contact_email"]⟩,
       ⟨"skills", ["skill_set", "skillset", "abilities", "competencies"]⟩,
       ⟨"availability", ["schedule", "working_hours", "available_time"]⟩,
       ⟨"capacity", ["max_capacity", "workload", "bandwidth"]⟩,
       ⟨"preferences", ["prefs", "settings", "custom_preferences"]⟩]
  | .task =>
      [⟨"id", ["task_id", "taskid", "ticket_id", "job_id"]⟩,
       ⟨"title", ["task_title", "name", "task_name", "description"]⟩,
       ⟨"description", ["details", "task_description", "summary"]⟩,
       ⟨"assignedTo", ["assigned_to", "worker_id", "assignee"]⟩,
       ⟨"status", ["task_status", "state", "progress"]⟩,
       ⟨"priority", ["task_priority", "importance", "urgency"]⟩,
       ⟨"dueDate", ["due_date", "deadline", "target_date"]⟩,
       ⟨"estimatedHours", ["estimated_hours", "duration", "effort"]⟩,
       ⟨"attributes", ["attrs", "custom_attributes", "properties"]⟩]

structure HeaderMatch where
  field : String
  confidence : JNum
  reason : String
deriving Repr, DecidableEq

/-- `header.toLowerCase().replace(/[-_\s]/g, '')`. -/
def normalizeHeader (h : String) : String :=
  String.mk ((sToLower h).data.filter
    (fun c => c ≠ '-' ∧ c ≠ '_' ∧ ¬ c.isWhitespace))

/-- The per-field tiers of `findBestHeaderMatch`: exact canonical match,
then alias match, then substring containment either way. -/
def fieldHeaderMatch (headerLower : String) (expected : HeaderField) :
    Option HeaderMatch :=
  if sToLower expected.field = headerLower then
    some ⟨expected.field, 1, "Exact match"⟩
  else
    match expected.aliases.find?
        (fun a => normalizeHeader a == headerLower) with
    | some a => some ⟨expected.field, JNum.norm 9 10, "Matched alias: " ++ a⟩
    | none =>
        if jsIncludes headerLower (sToLower expected.field) ||
            jsIncludes (sToLower expected.field) headerLower then
          some ⟨expected.field, JNum.norm 7 10, "Partial match"⟩
        else none

/-- `AIService.findBestHeaderMatch`: the first field of the list that
matches at any tier wins. -/
def findBestHeaderMatch (header : String)
    (expectedHeaders : List HeaderField) : Option HeaderMatch :=
  let headerLower := normalizeHeader header
  expectedHeaders.foldl (fun acc e =>
    match acc with
    | some m => some m
    | none => fieldHeaderMatch headerLower e) none

/-! ### Rule creation (`RuleSchema` and `RuleBuilder.addRule`) -/

/-- A dynamic parameter value inside a rule's `parameters` bag. -/
inductive PVal
  | str (s : String)
  | num (q : JNum)
  | bool (b : Bool)
  | null
deriving Repr, DecidableEq

/-- The raw object handed to `RuleSchema.parse` by `addRule`. -/
structure RuleInput where
  id : String
  type : String
  name : String
  description : Option String
  priority : Option JNum
  isActive : Option Bool
  parameters : List (String × PVal)
  createdAtMs : Int
  updatedAtMs : Int
deriving Repr, DecidableEq

structure Rule where
  id : String
  type : String
  name : String
  description : Option String
  priority : JNum
  isActive : Bool
  parameters : List (String × PVal)
  createdAtMs : Int
  updatedAtMs : Int
deriving Repr, DecidableEq

def ruleTypes : List String :=
  ["co-run", "slot-restriction", "load-limit", "phase-window",
   "pattern-match", "precedence-override"]

/-- `RuleSchema.parse` (as `safeParse`): id and name must be non-empty,
the type must be one of the six kinds, and `parameters` is
`z.record(z.any())` — any bag of parameters is accepted. -/
def ruleParse (r : RuleInput) : Except (List ZIssue) Rule :=
  let idIssues : List ZIssue :=
    if 1 ≤ r.id.length then [] else [⟨["id"], "Rule ID is required"⟩]
  let typeIssues : List ZIssue :=
    if ruleTypes.contains r.type then []
    else [⟨["type"], "Invalid enum value"⟩]
  let nameIssues : List ZIssue :=
    if 1 ≤ r.name.length then [] else [⟨["name"], "Rule name is required"⟩]
  match idIssues ++ typeIssues ++ nameIssues with
  | [] => .ok
      { id := r.id, type := r.type, name := r.name,
        description := r.description,
        priority := r.priority.getD 1,
        isActive := r.isActive.getD true,
        parameters := r.parameters,
        createdAtMs := r.createdAtMs, updatedAtMs := r.updatedAtMs }
  | issues => .error issues

/-- Modelled from the spec: the fixed co-run parameter shape, "a list of
task ids".  The builder form stores them under the `taskIds` key.  Used
only to compare the schema's behaviour against the spec's claim. -/
def coRunShapeOk (params : List (String × PVal)) : Bool :=
  params.any (fun p => p.1 == "taskIds")

/-- Modelled from the spec: the slot-restriction shape — group type in
\x7bclient, worker\x7d, a group tag, and min common slots ≥ 1. -/
def slotRestrictionShapeOk (params : List (String × PVal)) : Bool :=
  (params.any (fun p => p.1 == "groupType" &&
      (p.2 == .str "client" || p.2 == .str "worker"))) &&
  (params.any (fun p => p.1 == "groupTag")) &&
  (params.any (fun p => p.1 == "minCommonSlots" &&
      match p.2 with | .num q => 1 ≤ q | _ => false))

/-! ### `FileParser.parseFile` -/

/-- A file handed to `parseFile`: its name plus the outcome of the
external reading/parsing step (`parseCSV`/`parseExcel`), which either
yields raw rows or fails. -/
structure FileModel where
  name : String
  content : Except String (List RawRow)
deriving Repr

/-- `FileParser.extractDataFromFile`: dispatch on the file extension,
throwing on unsupported types. -/
def extractDataFromFile (f : FileModel) : Except String (List RawRow) :=
  if sEndsWith f.name ".csv" then f.content
  else if sEndsWith f.name ".xlsx" ∨ sEndsWith f.name ".xls" then f.content
  else .error "Unsupported file type. Please upload a CSV or Excel file."

/-- `FileParser.parseFile`: any failure of extraction is caught and
converted into the synthetic row-0 error result. -/
def parseFile (f : FileModel) (dt : DataType) (env : Env) :
    ValidationResult DataRow :=
  match extractDataFromFile f with
  | .ok data => validateData data dt env
  | .error _ =>
      { isValid := false
        errors := [{ row := 0, field := "file",
                     message := "File parsing failed", value := none }]
        data := []
        validData := none
        summary := { totalRows := 0, validRows := 0, invalidRows := 0 } }

/-! ### Concrete fixtures used by counterexamples and witnesses -/

/-- A concrete environment instantiating the external collaborators. -/
def env0 : Env :=
  { nowMs := 0, dateParse := fun _ => none, pastLimitMs := 946684800000,
    futureLimitMs := 1900000000000, jsonOk := fun _ => true,
    emailOk := fun s => sContainsChar s '@' }

/-- A client row whose priority level passes schema coercion by clamping
but fails the raw-value pass. -/
def c2Row : RawRow :=
  [("id", some "C1"), ("name", some "Alice"), ("priorityLevel", some "7")]

/-- A task record with a raw comma-string `dependencies` property. -/
def mkDepTask (i d : String) : RTask :=
  { id := i, assignedTo := none, clientId := none, dependencies := .str d,
    duration := none, maxConcurrent := none, preferredPhases := none,
    requiredSkills := none }

/-- A single weakly-connected cluster with one genuine two-node cycle plus
a third task pointing into it. -/
def c4Tasks : List RTask :=
  [mkDepTask "A" "B", mkDepTask "B" "A", mkDepTask "C" "A"]

/-- The canonical three-task cycle of the spec's test property. -/
def c3Tasks : List RTask :=
  [mkDepTask "T1" "T2", mkDepTask "T2" "T3", mkDepTask "T3" "T1"]

/-- A coerced task whose `assignedTo` and `clientId` dangle. -/
def c1Task : Task :=
  { id := "T9", title := "t", category := none, duration := 1,
    requiredSkills := none, preferredPhases := none, maxConcurrent := 1,
    description := none, status := "pending", priority := "medium",
    dueDate := none, assignedTo := some "W9", clientId := some "C9",
    createdAt := 0, estimatedHours := none, actualHours := none,
    dependencies := none, attributes := none }

def emptyStore : StoreState :=
  { clients := [], workers := [], tasks := [], isUploading := false,
    uploadProgress := 0, clientValidationResults := none,
    workerValidationResults := none, taskValidationResults := none }

def c1Store : StoreState := { emptyStore with tasks := [c1Task] }

/-- The distinct data-row count the spec defines `invalidRows` to be. -/
def distinctInvalidRows (errors : List ValidationError) : Nat :=
  (((errors.filter (fun e => 0 < e.row)).map (·.row)).dedup).length

def c5Worker : RWorker :=
  { id := "W1", skills := none, availableSlots := some [1],
    maxLoadPerPhase := some 8 }

def c5Task : RTask :=
  { id := "T1", assignedTo := none, clientId := none,
    dependencies := .undef, duration := some 5, maxConcurrent := some 2,
    preferredPhases := some [1], requiredSkills := none }

/-- A task whose phase list carries a duplicate — exactly what the schema
transform produces from the raw cell `"1,1"`. -/
def cx5Task : RTask :=
  { id := "T1", assignedTo := none, clientId := none,
    dependencies := .undef, duration := some 5, maxConcurrent := some 2,
    preferredPhases := some (parsePreferredPhases "1,1"),
    requiredSkills := none }

def cx5Worker : RWorker :=
  { id := "W1", skills := none, availableSlots := some [1],
    maxLoadPerPhase := some 15 }

/-- A client upload whose id column is literally named `Client_ID`. -/
def c6Data : List RawRow :=
  [[("Client_ID", some "C1"), ("ClientName", some "n"),
    ("PriorityLevel", some "1")]]

/-- A co-run rule whose parameter bag does not carry the co-run shape. -/
def c8Rule : RuleInput :=
  { id := "rule-1", type := "co-run", name := "r", description := none,
    priority := some 1, isActive := some true,
    parameters := [("groupType", .str "worker")],
    createdAtMs := 0, updatedAtMs := 0 }

def exceptOk {ε α : Type} : Except ε α → Bool
  | .ok _ => true
  | .error _ => false

def c9File : FileModel := { name := "data.txt", content := .ok [] }

def c10Task : Task := { c1Task with id := "T1", assignedTo := none }

def c10Store : StoreState := { emptyStore with tasks := [c10Task] }

/-- The valid client entity the schema produces for `c2Row` (priority 7
silently clamped to 5). -/
def c2Client : Client :=
  { id := "C1", name := "Alice", priorityLevel := 5,
    requestedTaskIDs := none, groupTag := none, attributesJSON := none,
    email := none, phone := none, address := none, status := "active",
    metadata := none }

/-- The rational value of a `JNum`. -/
def JNum.toRat (a : JNum) : Rat := (a.num : Rat) / (a.den : Rat)

/-- The claim's reading of required capacity: the sum over tasks
preferring a phase (each task once) of duration × maxConcurrent. -/
def specRequiredRat (tasks : List RTask) (phase : Int) : Rat :=
  ((tasks.filter
      (fun t => (t.preferredPhases.getD []).contains phase)).map
    (fun t => (t.duration.getD 0).toRat *
      (t.maxConcurrent.getD 0).toRat)).sum

/-- The claim's reading of available capacity: the sum over workers having
a phase in `availableSlots` (each worker once) of `maxLoadPerPhase`. -/
def specAvailableRat (workers : List RWorker) (phase : Int) : Rat :=
  ((workers.filter
      (fun w => (w.availableSlots.getD []).contains phase)).map
    (fun w => (w.maxLoadPerPhase.getD 0).toRat)).sum

/-- One task's actual contribution to a phase's required capacity:
duration × (maxConcurrent || 1) once **per occurrence** of the phase in
`preferredPhases`, and only when both `preferredPhases` and `duration`
are present. -/
def reqContribRat (t : RTask) (phase : Int) : Rat :=
  match t.preferredPhases with
  | none => 0
  | some phases =>
      match t.duration with
      | none => 0
      | some d =>
          (phases.count phase : Rat) *
            (d.toRat * (effMaxConcurrent t).toRat)

/-- Per-phase required capacity as the code accumulates it: summed task
contributions, occurrence-counted. -/
def specRequiredOccRat (tasks : List RTask) (phase : Int) : Rat :=
  (tasks.map (fun t => reqContribRat t phase)).sum

/-- One worker's actual contribution to a phase's available capacity:
(maxLoadPerPhase || 8) once per occurrence of the phase in
`availableSlots`. -/
def availContribRat (w : RWorker) (phase : Int) : Rat :=
  match w.availableSlots with
  | none => 0
  | some slots => (slots.count phase : Rat) * (effMaxLoad w).toRat

/-- Per-phase available capacity as the code accumulates it. -/
def specAvailableOccRat (workers : List RWorker) (phase : Int) : Rat :=
  (workers.map (fun w => availContribRat w phase)).sum

/-- Well-formedness of a phase-capacity map: every stored value has a
positive denominator. -/
def MapWf (m : List (Int × JNum)) : Prop := ∀ kv ∈ m, 0 < kv.2.den

/-! Support predicates for the circular-dependency search. -/

/-- Invariants of the DFS state: the recursion stack only holds visited
nodes, only graph ids are ever visited, and no node is visited twice. -/
def dfsInv (ids : List String) (st : DfsState) : Prop :=
  (∀ x ∈ st.stack, x ∈ st.visited) ∧ (∀ x ∈ st.visited, x ∈ ids) ∧
    st.visited.Nodup

/-- The number of ids not yet visited. -/
def ucount (ids : List String) (st : DfsState) : Nat :=
  (ids.filter (fun i => !st.visited.contains i)).length

/-- All dependency edges of the graph stay inside the id set. -/
def graphClosed (ids : List String) (g : List (String × List String)) :
    Prop :=
  ∀ k l, jsMapGet g k = some l → ∀ d ∈ l, d ∈ ids

/-- Some rotation of the three-task cycle has been reported: all four of
its errors (one per task on the chain, the entry task twice) are in the
error list. -/
def cyclePresent (rowMap : List (String × Nat)) (T1 T2 T3 : String)
    (errs : List ValidationError) : Prop :=
  ∃ a b c, ((a, b, c) = (T1, T2, T3) ∨ (a, b, c) = (T2, T3, T1) ∨
      (a, b, c) = (T3, T1, T2)) ∧
    ∀ e ∈ cycleErrors rowMap [a, b, c, a], e ∈ errs

/-! ## Theorems -/

/-- **C9.** `parseFile` never throws past its own boundary: an unsupported
extension or a failed read/parse yields the synthetic
`{row: 0, field: 'file'}` result with empty data, `isValid` false, and
all-zero summary counts. -/
theorem parseFile_unrecoverable_is_synthetic_row0 (f : FileModel)
    (dt : DataType) (env : Env)
    (h : (¬ (sEndsWith f.name ".csv" ∨ sEndsWith f.name ".xlsx" ∨
        sEndsWith f.name ".xls")) ∨ (∃ msg, f.content = .error msg)) :
    parseFile f dt env =
      { isValid := false
        errors := [{ row := 0, field := "file",
                     message := "File parsing failed", value := none }]
        data := []
        validData := none
        summary := { totalRows := 0, validRows := 0, invalidRows := 0 } } := by
  unfold parseFile extractDataFromFile
  rcases h with h | ⟨msg, hmsg⟩
  · push_neg at h
    obtain ⟨h1, h2, h3⟩ := h
    simp [h1, h2, h3]
  · by_cases h1 : sEndsWith f.name ".csv" = true
    · simp [h1, hmsg]
    · by_cases h2 : (sEndsWith f.name ".xlsx" ∨ sEndsWith f.name ".xls")
      · simp [h1, h2, hmsg]
      · simp [h1, h2]

theorem parseFile_unrecoverable_witness :
    (¬ (sEndsWith c9File.name ".csv" ∨ sEndsWith c9File.name ".xlsx" ∨
        sEndsWith c9File.name ".xls")) ∧
    parseFile c9File .clients env0 =
      { isValid := false
        errors := [{ row := 0, field := "file",
                     message := "File parsing failed", value := none }]
        data := []
        validData := none
        summary := { totalRows := 0, validRows := 0, invalidRows := 0 } } :=
  ⟨by decide,
   parseFile_unrecoverable_is_synthetic_row0 c9File .clients env0
     (Or.inl (by decide))⟩

/-- **C10.** The in-place edit actions are frame-preserving: `updateTask`
(and likewise `updateClient`, `updateWorker`) merges the updates into
exactly the elements whose id matches, keeps every other element, the
list length and order, the other two collections and all three stored
validation results, and is the identity when no element matches. -/
theorem update_actions_frame (st : StoreState) :
    (∀ (id : String) (u : TaskUpdates),
      (updateTask st id u).clients = st.clients ∧
      (updateTask st id u).workers = st.workers ∧
      (updateTask st id u).clientValidationResults =
        st.clientValidationResults ∧
      (updateTask st id u).workerValidationResults =
        st.workerValidationResults ∧
      (updateTask st id u).taskValidationResults =
        st.taskValidationResults ∧
      (updateTask st id u).tasks.length = st.tasks.length ∧
      (∀ (i : Nat) (t : Task), st.tasks[i]? = some t →
        (t.id ≠ id → (updateTask st id u).tasks[i]? = some t) ∧
        (t.id = id → (updateTask st id u).tasks[i]? = some (t.merge u))) ∧
      ((∀ t ∈ st.tasks, t.id ≠ id) → updateTask st id u = st)) ∧
    (∀ (id : String) (u : ClientUpdates),
      (updateClient st id u).tasks = st.tasks ∧
      (updateClient st id u).workers = st.workers ∧
      (updateClient st id u).clientValidationResults =
        st.clientValidationResults ∧
      (updateClient st id u).workerValidationResults =
        st.workerValidationResults ∧
      (updateClient st id u).taskValidationResults =
        st.taskValidationResults ∧
      (updateClient st id u).clients.length = st.clients.length ∧
      (∀ (i : Nat) (c : Client), st.clients[i]? = some c →
        (c.id ≠ id → (updateClient st id u).clients[i]? = some c) ∧
        (c.id = id → (updateClient st id u).clients[i]? = some (c.merge u))) ∧
      ((∀ c ∈ st.clients, c.id ≠ id) → updateClient st id u = st)) ∧
    (∀ (id : String) (u : WorkerUpdates),
      (updateWorker st id u).tasks = st.tasks ∧
      (updateWorker st id u).clients = st.clients ∧
      (updateWorker st id u).clientValidationResults =
        st.clientValidationResults ∧
      (updateWorker st id u).workerValidationResults =
        st.workerValidationResults ∧
      (updateWorker st id u).taskValidationResults =
        st.taskValidationResults ∧
      (updateWorker st id u).workers.length = st.workers.length ∧
      (∀ (i : Nat) (w : Worker), st.workers[i]? = some w →
        (w.id ≠ id → (updateWorker st id u).workers[i]? = some w) ∧
        (w.id = id → (updateWorker st id u).workers[i]? = some (w.merge u))) ∧
      ((∀ w ∈ st.workers, w.id ≠ id) → updateWorker st id u = st)) := by
  refine ⟨fun id u => ?_, fun id u => ?_, fun id u => ?_⟩ <;>
    refine ⟨rfl, rfl, rfl, rfl, rfl, by simp [updateTask, updateClient,
      updateWorker], fun i x hx => ⟨fun hne => ?_, fun heq => ?_⟩, fun hall => ?_⟩
  · simp [updateTask, List.getElem?_map, hx, hne]
  · simp [updateTask, List.getElem?_map, hx, heq]
  · show { st with tasks := _ } = st
    have : st.tasks.map (fun t => if t.id = id then t.merge u else t) =
        st.tasks := by
      have h2 := List.map_congr_left (fun a ha => by simp [hall a ha] :
        ∀ a ∈ st.tasks, (if a.id = id then a.merge u else a) = a)
      simpa using h2
    rw [this]
  · simp [updateClient, List.getElem?_map, hx, hne]
  · simp [updateClient, List.getElem?_map, hx, heq]
  · show { st with clients := _ } = st
    have : st.clients.map (fun c => if c.id = id then c.merge u else c) =
        st.clients := by
      have h2 := List.map_congr_left (fun a ha => by simp [hall a ha] :
        ∀ a ∈ st.clients, (if a.id = id then a.merge u else a) = a)
      simpa using h2
    rw [this]
  · simp [updateWorker, List.getElem?_map, hx, hne]
  · simp [updateWorker, List.getElem?_map, hx, heq]
  · show { st with workers := _ } = st
    have : st.workers.map (fun w => if w.id = id then w.merge u else w) =
        st.workers := by
      have h2 := List.map_congr_left (fun a ha => by simp [hall a ha] :
        ∀ a ∈ st.workers, (if a.id = id then a.merge u else a) = a)
      simpa using h2
    rw [this]

theorem update_actions_frame_witness :
    (c10Task.id ≠ "TX") ∧
    ((updateTask c10Store "TX" {}).clients = c10Store.clients) ∧
    (c10Store.tasks[0]? = some c10Task) ∧
    ((updateTask c10Store "TX" {}).tasks[0]? = some c10Task) ∧
    ((∀ t ∈ c10Store.tasks, t.id ≠ "TX") → updateTask c10Store "TX" {} =
      c10Store) :=
  ⟨by decide, ((update_actions_frame c10Store).1 "TX" {}).1, by decide,
   (((update_actions_frame c10Store).1 "TX" {}).2.2.2.2.2.2.1 0 c10Task
     (by decide)).1 (by decide),
   ((update_actions_frame c10Store).1 "TX" {}).2.2.2.2.2.2.2⟩

/-- **C8, counterexample.** Rule creation does not enforce a per-type
parameter shape: a co-run rule whose parameter bag has no task-id list at
all parses successfully, so creation does not fail on the mismatch. -/
theorem ruleParse_accepts_mismatched_parameters :
    exceptOk (ruleParse c8Rule) = true ∧ c8Rule.type = "co-run" ∧
    coRunShapeOk c8Rule.parameters = false := by decide

/-- **C8, amended.** `RuleSchema` validates only the base fields: parse
success is independent of the parameter bag (`z.record(z.any())`), an
empty name is rejected, and acceptance is exactly non-empty id and name
plus one of the six rule types. -/
theorem ruleParse_shape (r : RuleInput) (p₁ p₂ : List (String × PVal)) :
    exceptOk (ruleParse { r with parameters := p₁ }) =
      exceptOk (ruleParse { r with parameters := p₂ }) ∧
    (r.name = "" → ∃ issues, ruleParse r = .error issues) ∧
    (exceptOk (ruleParse r) = true ↔
      (1 ≤ r.id.length ∧ ruleTypes.contains r.type = true ∧
        1 ≤ r.name.length)) := by
  refine ⟨?_, fun hname => ?_, ?_⟩
  · unfold ruleParse
    cases h : (if 1 ≤ r.id.length then ([] : List ZIssue)
        else [⟨["id"], "Rule ID is required"⟩]) ++
      (if ruleTypes.contains r.type then []
        else [⟨["type"], "Invalid enum value"⟩]) ++
      (if 1 ≤ r.name.length then []
        else [⟨["name"], "Rule name is required"⟩])
      with
    | nil => simp only [h, exceptOk]
    | cons a l => simp only [h, exceptOk]
  · unfold ruleParse
    have h1 : ¬ 1 ≤ r.name.length := by
      simp [hname]
    by_cases hid : 1 ≤ r.id.length <;>
      by_cases hty : r.type ∈ ruleTypes <;>
      exact ⟨_, by simp [hid, hty, h1]; rfl⟩
  · unfold ruleParse
    by_cases hid : 1 ≤ r.id.length <;>
      by_cases hty : r.type ∈ ruleTypes <;>
      by_cases hnm : 1 ≤ r.name.length <;>
      simp [hid, hty, hnm, exceptOk]

theorem ruleParse_shape_witness :
    (({ c8Rule with name := "" } : RuleInput).name = "") ∧
    (∃ issues, ruleParse { c8Rule with name := "" } = .error issues) :=
  ⟨rfl, (ruleParse_shape { c8Rule with name := "" } [] []).2.1 rfl⟩

/-- **C7, counterexample.** `description` is itself a canonical task
field, yet the header literally named `description` is mapped to `title`
(confidence 0.9) because the earlier field `title` lists `description`
among its aliases — an exact canonical-name match is shadowed. -/
theorem headerMatch_exact_shadowed_by_alias :
    (∃ hf ∈ getExpectedHeaders .task, hf.field = "description") ∧
    findBestHeaderMatch "description" (getExpectedHeaders .task) =
      some ⟨"title", JNum.norm 9 10, "Matched alias: description"⟩ := by
  decide

/-- **C7, amended.** The matcher walks the canonical fields in list order
and, *within one field*, tries exact (1.0), then alias (0.9), then
substring containment (0.7); the first field that matches at any tier
wins (so an earlier field's alias or substring match can shadow a later
field's exact match), a header matching no field is omitted, and the
function is total. -/
theorem findBestHeaderMatch_first_field_wins (header : String)
    (hs pre post : List HeaderField) (f : HeaderField) (m : HeaderMatch) :
    ((∀ f' ∈ hs, fieldHeaderMatch (normalizeHeader header) f' = none) →
      findBestHeaderMatch header hs = none) ∧
    (hs = pre ++ f :: post →
      (∀ f' ∈ pre, fieldHeaderMatch (normalizeHeader header) f' = none) →
      fieldHeaderMatch (normalizeHeader header) f = some m →
      findBestHeaderMatch header hs = some m ∧
      m.field = f.field ∧
      ((m.confidence = 1 ∧ sToLower f.field = normalizeHeader header) ∨
       (m.confidence = JNum.norm 9 10 ∧
         ∃ a ∈ f.aliases, normalizeHeader a = normalizeHeader header) ∨
       (m.confidence = JNum.norm 7 10 ∧
         (jsIncludes (normalizeHeader header) (sToLower f.field) ||
          jsIncludes (sToLower f.field) (normalizeHeader header)) = true))) := by
  have foldNone : ∀ (l : List HeaderField),
      (∀ f' ∈ l, fieldHeaderMatch (normalizeHeader header) f' = none) →
      l.foldl (fun acc e =>
        match acc with
        | some m' => some m'
        | none => fieldHeaderMatch (normalizeHeader header) e) none = none := by
    intro l
    induction l with
    | nil => intro _; rfl
    | cons a l ih =>
        intro h
        have ha := h a (List.mem_cons_self a l)
        simp only [List.foldl_cons, ha]
        exact ih (fun f' hf' => h f' (List.mem_cons_of_mem a hf'))
  have foldSome : ∀ (l : List HeaderField) (m' : HeaderMatch),
      l.foldl (fun acc e =>
        match acc with
        | some m'' => some m''
        | none => fieldHeaderMatch (normalizeHeader header) e) (some m') =
        some m' := by
    intro l
    induction l with
    | nil => intro m'; rfl
    | cons a l ih => intro m'; simp only [List.foldl_cons]; exact ih m'
  constructor
  · intro hall
    unfold findBestHeaderMatch
    exact foldNone hs hall
  · intro heq hpre hf
    refine ⟨?_, ?_⟩
    · unfold findBestHeaderMatch
      subst heq
      rw [List.foldl_append]
      rw [foldNone pre hpre]
      simp only [List.foldl_cons, hf]
      exact foldSome post m
    · unfold fieldHeaderMatch at hf
      by_cases h1 : sToLower f.field = normalizeHeader header
      · rw [if_pos h1] at hf
        cases hf
        exact ⟨rfl, Or.inl ⟨rfl, h1⟩⟩
      · rw [if_neg h1] at hf
        cases hfind : f.aliases.find?
            (fun a => normalizeHeader a == normalizeHeader header) with
        | some a =>
            simp only [hfind] at hf
            cases hf
            refine ⟨rfl, Or.inr (Or.inl ⟨rfl, a,
              List.mem_of_find?_eq_some hfind, ?_⟩)⟩
            have := List.find?_some hfind
            simpa using this
        | none =>
            simp only [hfind] at hf
            by_cases h2 : (jsIncludes (normalizeHeader header)
                (sToLower f.field) ||
              jsIncludes (sToLower f.field) (normalizeHeader header)) = true
            · rw [if_pos h2] at hf
              cases hf
              exact ⟨rfl, Or.inr (Or.inr ⟨rfl, h2⟩)⟩
            · rw [if_neg h2] at hf
              cases hf

theorem findBestHeaderMatch_witness :
    ((getExpectedHeaders .client : List HeaderField) =
      [] ++ (⟨"id", ["client_id", "clientid", "identifier", "client-id"]⟩ :
        HeaderField) :: (getExpectedHeaders .client).tail) ∧
    (fieldHeaderMatch (normalizeHeader "ID")
      ⟨"id", ["client_id", "clientid", "identifier", "client-id"]⟩ =
      some ⟨"id", 1, "Exact match"⟩) ∧
    findBestHeaderMatch "ID" (getExpectedHeaders .client) =
      some ⟨"id", 1, "Exact match"⟩ :=
  ⟨by decide, by decide,
   ((findBestHeaderMatch_first_field_wins "ID"
      (getExpectedHeaders .client) []
      (getExpectedHeaders .client).tail
      ⟨"id", ["client_id", "clientid", "identifier", "client-id"]⟩
      ⟨"id", 1, "Exact match"⟩).2 (by decide) (by decide) (by decide)).1⟩

/-- **C6, counterexample.** Underscores are not whitespace: the column
literally named `Client_ID` does *not* satisfy the required `ClientID`
column, and `validateMissingRequiredColumns` emits a missing-column error
for it. -/
theorem missingColumns_reject_underscored_ClientID :
    headerMatches "Client_ID" "ClientID" = false ∧
    (validateMissingRequiredColumns c6Data .clients).map
      (fun e => (e.row, e.field)) = [(0, "ClientID")] := by decide

/-- **C6, amended.** A required column counts as present exactly when some
raw header matches it by exact, case-insensitive, or
whitespace-insensitive comparison; since underscores survive all three
comparisons, a `Client_ID` header does not satisfy `ClientID` here (only
the Excel ingestion path, which strips non-alphanumerics before this
check, makes it match). -/
theorem missingColumns_presence_iff (data : List RawRow) (dt : DataType)
    (col : String) (hne : data ≠ []) (hcol : col ∈ requiredColumns dt) :
    (∀ e ∈ validateMissingRequiredColumns data dt, e.field ≠ col) ↔
    ∃ h ∈ (data.headI).map (·.1),
      (h = col ∨ sToLower h = sToLower col ∨
        stripWhitespace (sToLower h) = stripWhitespace (sToLower col)) := by
  have hlen : ¬ data.length = 0 := by
    cases data with
    | nil => exact absurd rfl hne
    | cons a l => simp
  have hbridge : ∀ h : String, headerMatches h col = true ↔
      (h = col ∨ sToLower h = sToLower col ∨
        stripWhitespace (sToLower h) = stripWhitespace (sToLower col)) := by
    intro h
    unfold headerMatches
    simp [Bool.or_eq_true, or_assoc]
  unfold validateMissingRequiredColumns
  simp only [hlen, if_false]
  by_cases hany : ((data.headI).map (·.1)).any
      (fun h => headerMatches h col) = true
  · constructor
    · intro _
      rw [List.any_eq_true] at hany
      obtain ⟨h, hh, hm⟩ := hany
      exact ⟨h, hh, (hbridge h).1 hm⟩
    · intro _ e he hfield
      rw [List.mem_flatMap] at he
      obtain ⟨c, hc, hec⟩ := he
      by_cases hanyc : ((data.headI).map (·.1)).any
          (fun x => headerMatches x c) = true
      · rw [if_pos hanyc] at hec
        simp at hec
      · rw [if_neg hanyc] at hec
        simp only [List.mem_singleton] at hec
        subst hec
        simp only at hfield
        subst hfield
        exact hanyc hany
  · constructor
    · intro hall
      exfalso
      refine hall ⟨0, col, "Missing required column: " ++ col,
          some ("Available columns: " ++
            String.intercalate ", " ((data.headI).map (·.1)))⟩
        (List.mem_flatMap.mpr ⟨col, hcol, ?_⟩) rfl
      rw [if_neg hany]
      exact List.mem_singleton.mpr rfl
    · intro ⟨h, hh, hmatch⟩
      exact absurd (List.any_eq_true.mpr ⟨h, hh, (hbridge h).2 hmatch⟩) hany

theorem missingColumns_presence_witness :
    (c6Data ≠ [] ∧ "ClientName" ∈ requiredColumns .clients) ∧
    (∃ h ∈ (c6Data.headI).map (·.1),
      (h = "ClientName" ∨ sToLower h = sToLower "ClientName" ∨
        stripWhitespace (sToLower h) =
          stripWhitespace (sToLower "ClientName"))) ∧
    (∀ e ∈ validateMissingRequiredColumns c6Data .clients,
      e.field ≠ "ClientName") :=
  ⟨⟨by decide, by decide⟩, by decide,
   (missingColumns_presence_iff c6Data .clients "ClientName" (by decide)
     (by decide)).2 (by decide)⟩

/-- **C2, counterexample.** A client row with raw priority level `7`
passes schema coercion (silently clamped to 5) and is therefore included
in `validData`, yet the raw-value pass flags its row number 1 with a
`priorityLevel` error in the same result — `validData` is not "rows with
zero errors". -/
theorem validData_keeps_raw_flagged_row :
    (validateData [c2Row] .clients env0).validData =
      some [DataRow.parsed (.cl c2Client)] ∧
    ((validateData [c2Row] .clients env0).errors.filter
      (fun e => e.row == 1 && e.field == "priorityLevel")).length = 1 := by
  decide

/-- **C2, amended.** `validData` contains exactly the rows accepted by
schema coercion, in order; rows flagged only by the duplicate-ID pass or
by the raw-value passes (out-of-range, malformed-list, priority-level,
duration), which run afterwards and never remove anything from it, still
appear in `validData`. -/
theorem validData_is_schema_successes (data : List RawRow) (dt : DataType)
    (env : Env) :
    (validateData data dt env).validData =
      some (data.filterMap (fun row =>
        match schemaSafeParse dt env row with
        | .ok e => some (DataRow.parsed e)
        | .error _ => none)) := by
  have main : ∀ (l : List RawRow) (k : Nat),
      ((List.enumFrom k l).map
        (fun p => schemaRowResult dt env p.1 p.2)).flatMap (fun r => r.2.1) =
      l.filterMap (fun row =>
        match schemaSafeParse dt env row with
        | .ok e => some (DataRow.parsed e)
        | .error _ => none) := by
    intro l
    induction l with
    | nil => intro k; rfl
    | cons r rest ih =>
        intro k
        simp only [List.enumFrom, List.map_cons, List.flatMap_cons,
          List.filterMap_cons]
        rw [ih (k + 1)]
        cases h : schemaSafeParse dt env r with
        | ok e => simp [schemaRowResult, h]
        | error issues => simp [schemaRowResult, h]
  by_cases hempty : data.length = 0
  · have hnil : data = [] := List.length_eq_zero.mp hempty
    subst hnil
    rfl
  · unfold validateData
    rw [if_neg hempty]
    exact congrArg some (main data 0)

/-! Row-number bounds for the error passes, feeding the
`invalidRows ≤ totalRows` part of C1. -/

theorem missingColumns_row_zero (data : List RawRow) (dt : DataType) :
    ∀ e ∈ validateMissingRequiredColumns data dt, e.row = 0 := by
  intro e he
  unfold validateMissingRequiredColumns at he
  split at he
  · simp at he
  · rw [List.mem_flatMap] at he
    obtain ⟨c, _, hec⟩ := he
    split at hec <;> simp_all

theorem outOfRangeRowErrors_row (env : Env) (dt : DataType) (i : Nat)
    (row : RawRow) : ∀ e ∈ outOfRangeRowErrors env dt i row,
      e.row = i + 1 := by
  intro e he
  unfold outOfRangeRowErrors at he
  cases dt with
  | clients => simp at he
  | workers =>
      simp only [List.mem_append] at he
      rcases he with he | he <;> (repeat' split at he) <;> simp_all
  | tasks =>
      simp only [List.mem_append] at he
      rcases he with (he | he) | he <;> (repeat' split at he) <;> simp_all

theorem malformedListRowErrors_row (dt : DataType) (i : Nat)
    (row : RawRow) : ∀ e ∈ malformedListRowErrors dt i row,
      e.row = i + 1 := by
  intro e he
  unfold malformedListRowErrors at he
  repeat' split at he
  all_goals try dsimp only at he
  all_goals try (repeat' split at he)
  all_goals simp_all

theorem priorityLevelRowErrors_row (i : Nat) (row : RawRow) :
    ∀ e ∈ priorityLevelRowErrors i row, e.row = i + 1 := by
  intro e he
  unfold priorityLevelRowErrors at he
  (repeat' split at he) <;> simp_all

theorem taskDurationRowErrors_row (i : Nat) (row : RawRow) :
    ∀ e ∈ taskDurationRowErrors i row, e.row = i + 1 := by
  intro e he
  unfold taskDurationRowErrors at he
  (repeat' split at he) <;> simp_all

theorem schemaRowResult_row (dt : DataType) (env : Env) (i : Nat)
    (row : RawRow) : ∀ e ∈ (schemaRowResult dt env i row).1,
      e.row = i + 1 := by
  intro e he
  unfold schemaRowResult at he
  split at he
  · simp at he
  · simp only [List.mem_map] at he
    obtain ⟨iss, _, hiss⟩ := he
    subst hiss
    rfl

/-- Bound for errors generated per enumerated row. -/
theorem enum_flatMap_row_bound {f : Nat → RawRow → List ValidationError}
    (data : List RawRow)
    (hrow : ∀ i row e, e ∈ f i row → e.row = i + 1) :
    ∀ e ∈ data.enum.flatMap (fun p => f p.1 p.2),
      1 ≤ e.row ∧ e.row ≤ data.length := by
  intro e he
  rw [List.mem_flatMap] at he
  obtain ⟨⟨i, row⟩, hp, hef⟩ := he
  have hp' : (i, row) ∈ List.enumFrom 0 data := hp
  have hb := List.mem_enumFrom hp'
  have hr := hrow i row e hef
  omega

theorem addRowToIdCounts_mem (m : List (String × List Nat)) (i : String)
    (r : Nat) : ∀ p ∈ addRowToIdCounts m i r, ∀ x ∈ p.2,
      (∃ p' ∈ m, x ∈ p'.2) ∨ x = r := by
  induction m with
  | nil =>
      intro p hp x hx
      simp only [addRowToIdCounts, List.mem_singleton] at hp
      subst hp
      simp at hx
      right; exact hx
  | cons q rest ih =>
      obtain ⟨k, rs⟩ := q
      intro p hp x hx
      unfold addRowToIdCounts at hp
      by_cases hk : k = i
      · rw [if_pos hk] at hp
        rcases List.mem_cons.mp hp with hp | hp
        · subst hp
          simp only [List.mem_append, List.mem_singleton] at hx
          rcases hx with hx | hx
          · exact Or.inl ⟨(k, rs), List.mem_cons_self (k, rs) rest, hx⟩
          · exact Or.inr hx
        · exact Or.inl ⟨p, List.mem_cons_of_mem (k, rs) hp, hx⟩
      · rw [if_neg hk] at hp
        rcases List.mem_cons.mp hp with hp | hp
        · subst hp
          exact Or.inl ⟨(k, rs), List.mem_cons_self (k, rs) rest, hx⟩
        · rcases ih p hp x hx with ⟨p', hp', hx'⟩ | hx'
          · exact Or.inl ⟨p', List.mem_cons_of_mem (k, rs) hp', hx'⟩
          · exact Or.inr hx'

theorem buildIdCounts_rows (data : List RawRow) :
    ∀ p ∈ buildIdCounts data, ∀ r ∈ p.2,
      1 ≤ r ∧ r ≤ data.length := by
  have gen : ∀ (l : List (Nat × RawRow)) (m0 : List (String × List Nat)),
      (∀ p ∈ m0, ∀ r ∈ p.2, 1 ≤ r ∧ r ≤ data.length) →
      (∀ q ∈ l, q.1 + 1 ≤ data.length) →
      ∀ p ∈ l.foldl (fun m p =>
        let i := dupId p.2
        if i ≠ "" then addRowToIdCounts m i (p.1 + 1) else m) m0,
        ∀ r ∈ p.2, 1 ≤ r ∧ r ≤ data.length := by
    intro l
    induction l with
    | nil => intro m0 hm0 _ p hp r hr; exact hm0 p hp r hr
    | cons q rest ih =>
        intro m0 hm0 hl p hp r hr
        simp only [List.foldl_cons] at hp
        refine ih _ ?_ (fun q' hq' => hl q' (List.mem_cons_of_mem q hq'))
          p hp r hr
        intro p' hp' r' hr'
        split at hp'
        · rcases addRowToIdCounts_mem m0 (dupId q.2) (q.1 + 1) p' hp' r' hr'
            with ⟨p'', hp'', hr''⟩ | hr''
          · exact hm0 p'' hp'' r' hr''
          · subst hr''
            exact ⟨Nat.le_add_left 1 q.1, hl q (List.mem_cons_self q rest)⟩
        · exact hm0 p' hp' r' hr'
  intro p hp r hr
  refine gen data.enum [] (by simp) ?_ p hp r hr
  intro ⟨i, row⟩ hq
  have hq' : (i, row) ∈ List.enumFrom 0 data := hq
  have hb := List.mem_enumFrom hq'
  omega

theorem duplicateIdErrors_row (data : List RawRow) :
    ∀ e ∈ duplicateIdErrors data, 1 ≤ e.row ∧ e.row ≤ data.length := by
  intro e he
  unfold duplicateIdErrors at he
  rw [List.mem_flatMap] at he
  obtain ⟨p, hp, hep⟩ := he
  split at hep
  · rw [List.mem_map] at hep
    obtain ⟨r, hr, hre⟩ := hep
    subst hre
    exact buildIdCounts_rows data p hp r hr
  · simp at hep

/-- Every error a `validateData` run produces refers to row 0 or to one of
the 1-based data rows. -/
theorem validateData_error_rows (data : List RawRow) (dt : DataType)
    (env : Env) : ∀ e ∈ (validateData data dt env).errors,
      e.row ≤ data.length := by
  intro e he
  by_cases hempty : data.length = 0
  · unfold validateData at he
    rw [if_pos hempty] at he
    simp at he
  · unfold validateData at he
    rw [if_neg hempty] at he
    simp only [List.mem_append] at he
    rcases he with ((((((hm | hd) | hs) | hr) | hml) | hp) | hdu)
    · rw [missingColumns_row_zero data dt e hm]
      omega
    · exact (duplicateIdErrors_row data e hd).2
    · rw [List.mem_flatMap] at hs
      obtain ⟨res, hres, hes⟩ := hs
      rw [List.mem_map] at hres
      obtain ⟨⟨i, row⟩, hp', hres⟩ := hres
      subst hres
      have hp'' : (i, row) ∈ List.enumFrom 0 data := hp'
      have hb := List.mem_enumFrom hp''
      have := schemaRowResult_row dt env i row e hes
      omega
    · exact (enum_flatMap_row_bound data
        (fun i row e' => outOfRangeRowErrors_row env dt i row e') e hr).2
    · exact (enum_flatMap_row_bound data
        (fun i row e' => malformedListRowErrors_row dt i row e') e hml).2
    · split at hp
      · exact (enum_flatMap_row_bound data
          (fun i row e' => priorityLevelRowErrors_row i row e') e hp).2
      · simp at hp
    · split at hdu
      · exact (enum_flatMap_row_bound data
          (fun i row e' => taskDurationRowErrors_row i row e') e hdu).2
      · simp at hdu

/-- Counting distinct rows among bounded row numbers is bounded by the row
count. -/
theorem distinctInvalidRows_le (errors : List ValidationError) (n : Nat)
    (hb : ∀ e ∈ errors, e.row ≤ n) : distinctInvalidRows errors ≤ n := by
  unfold distinctInvalidRows
  have h1 : (((errors.filter (fun e => 0 < e.row)).map (·.row)).dedup).length
      = ((errors.filter (fun e => 0 < e.row)).map (·.row)).toFinset.card :=
    (List.card_toFinset _).symm
  rw [h1]
  have hsub : ((errors.filter (fun e => 0 < e.row)).map (·.row)).toFinset ⊆
      Finset.Icc 1 n := by
    intro x hx
    rw [List.mem_toFinset, List.mem_map] at hx
    obtain ⟨er, her, hx⟩ := hx
    rw [List.mem_filter] at her
    subst hx
    have h2 := hb er her.1
    have h3 : 0 < er.row := by simpa using her.2
    rw [Finset.mem_Icc]
    omega
  calc ((errors.filter (fun e => 0 < e.row)).map (·.row)).toFinset.card
      ≤ (Finset.Icc 1 n).card := Finset.card_le_card hsub
    _ = n := by rw [Nat.card_Icc]; omega

theorem validateData_totalRows (data : List RawRow) (dt : DataType)
    (env : Env) :
    (validateData data dt env).summary.totalRows = data.length := by
  unfold validateData
  split
  next h => exact h.symm
  next => rfl

/-- **C1, counterexample.** One dangling task with two cross-reference
errors on the same row: the stored merged result reports
`invalidRows = 2` (the error count) although only one distinct data row
appears in the errors, and `invalidRows` exceeds `totalRows = 1`. -/
theorem store_merge_invalidRows_counterexample :
    ((storeValidateCrossReferences c1Store).taskValidationResults.map
      (fun v => v.summary.invalidRows)) = some 2 ∧
    ((storeValidateCrossReferences c1Store).taskValidationResults.map
      (fun v => distinctInvalidRows v.errors)) = some 1 ∧
    ((storeValidateCrossReferences c1Store).taskValidationResults.map
      (fun v => v.summary.totalRows)) = some 1 := by decide

/-- **C1, amended.** For every result produced by
`FileParser.validateData`, `summary.invalidRows` equals the number of
distinct row numbers > 0 in its errors and never exceeds
`summary.totalRows`; the store's cross-reference action, however, rebuilds
the stored task summary with `invalidRows` set to the *merged error
count* (and `validRows = totalRows - errorCount`), not the distinct row
count. -/
theorem invalidRows_distinct_and_bounded (data : List RawRow)
    (dt : DataType) (env : Env) (st : StoreState) :
    ((validateData data dt env).summary.invalidRows =
      distinctInvalidRows (validateData data dt env).errors) ∧
    ((validateData data dt env).summary.invalidRows ≤
      (validateData data dt env).summary.totalRows) ∧
    (storeValidateCrossReferences st = st ∨
      ∃ r, (storeValidateCrossReferences st).taskValidationResults =
          some r ∧
        r.summary.invalidRows = r.errors.length ∧
        r.summary.validRows = (st.tasks.length : Int) - r.errors.length ∧
        r.summary.totalRows = st.tasks.length) := by
  refine ⟨?_, ?_, ?_⟩
  · unfold validateData distinctInvalidRows
    split
    · rfl
    · rfl
  · have h1 : (validateData data dt env).summary.invalidRows =
        distinctInvalidRows (validateData data dt env).errors := by
      unfold validateData distinctInvalidRows
      split
      · rfl
      · rfl
    rw [h1, validateData_totalRows]
    exact distinctInvalidRows_le _ _ (validateData_error_rows data dt env)
  · unfold storeValidateCrossReferences
    dsimp only
    split
    · right
      exact ⟨_, rfl, rfl, rfl, rfl⟩
    · left
      rfl

/-! `JNum` correctness layer: the embedding's rationals agree with
Mathlib's under `JNum.toRat`. -/

theorem JNum.toRat_norm (n : Int) (d : Nat) (hd : d ≠ 0) :
    (JNum.norm n d).toRat = (n : Rat) / (d : Rat) := by
  unfold JNum.norm JNum.toRat
  have hg : Nat.gcd n.natAbs d ≠ 0 := fun h =>
    hd (Nat.eq_zero_of_gcd_eq_zero_right h)
  rw [if_neg hg]
  have hdvd1 : ((Nat.gcd n.natAbs d : Nat) : Int) ∣ n :=
    dvd_trans (Int.natCast_dvd_natCast.mpr (Nat.gcd_dvd_left _ _))
      (Int.natAbs_dvd.mpr dvd_rfl)
  have hdvd2 : Nat.gcd n.natAbs d ∣ d := Nat.gcd_dvd_right _ _
  have en : n / ((Nat.gcd n.natAbs d : Nat) : Int) *
      ((Nat.gcd n.natAbs d : Nat) : Int) = n := Int.ediv_mul_cancel hdvd1
  have ed : d / Nat.gcd n.natAbs d * Nat.gcd n.natAbs d = d :=
    Nat.div_mul_cancel hdvd2
  have hdpos : 0 < d := Nat.pos_of_ne_zero hd
  have hdgpos : 0 < d / Nat.gcd n.natAbs d :=
    Nat.div_pos (Nat.le_of_dvd hdpos hdvd2) (Nat.pos_of_ne_zero hg)
  rw [div_eq_div_iff (by exact_mod_cast Nat.pos_iff_ne_zero.mp hdgpos)
    (by exact_mod_cast hd)]
  have key : (n / ((Nat.gcd n.natAbs d : Nat) : Int)) * (d : Int) =
      n * ((d / Nat.gcd n.natAbs d : Nat) : Int) := by
    calc (n / ((Nat.gcd n.natAbs d : Nat) : Int)) * (d : Int)
        = (n / ((Nat.gcd n.natAbs d : Nat) : Int)) *
          ((d / Nat.gcd n.natAbs d * Nat.gcd n.natAbs d : Nat) : Int) := by
          rw [ed]
      _ = (n / ((Nat.gcd n.natAbs d : Nat) : Int) *
          ((Nat.gcd n.natAbs d : Nat) : Int)) *
          ((d / Nat.gcd n.natAbs d : Nat) : Int) := by push_cast; ring
      _ = n * ((d / Nat.gcd n.natAbs d : Nat) : Int) := by rw [en]
  dsimp only
  have key2 : ((n / ((Nat.gcd n.natAbs d : Nat) : Int) * (d : Int) : Int) :
      Rat) = ((n * ((d / Nat.gcd n.natAbs d : Nat) : Int) : Int) : Rat) :=
    congrArg (fun z : Int => (z : Rat)) key
  push_cast at key2 ⊢
  exact key2

theorem JNum.norm_den_pos (n : Int) (d : Nat) (hd : d ≠ 0) :
    0 < (JNum.norm n d).den := by
  unfold JNum.norm
  have hg : Nat.gcd n.natAbs d ≠ 0 := fun h =>
    hd (Nat.eq_zero_of_gcd_eq_zero_right h)
  rw [if_neg hg]
  exact Nat.div_pos (Nat.le_of_dvd (Nat.pos_of_ne_zero hd)
    (Nat.gcd_dvd_right _ _)) (Nat.pos_of_ne_zero hg)

theorem JNum.add_den_pos (a b : JNum) (ha : 0 < a.den) (hb : 0 < b.den) :
    0 < (a + b).den :=
  JNum.norm_den_pos _ _ (Nat.mul_ne_zero (by omega) (by omega))

theorem JNum.mul_den_pos (a b : JNum) (ha : 0 < a.den) (hb : 0 < b.den) :
    0 < (a * b).den :=
  JNum.norm_den_pos _ _ (Nat.mul_ne_zero (by omega) (by omega))

theorem JNum.toRat_add (a b : JNum) (ha : 0 < a.den) (hb : 0 < b.den) :
    (a + b).toRat = a.toRat + b.toRat := by
  show (JNum.add a b).toRat = a.toRat + b.toRat
  unfold JNum.add
  rw [JNum.toRat_norm _ _ (Nat.mul_ne_zero (by omega) (by omega))]
  unfold JNum.toRat
  have ha' : ((a.den : Nat) : Rat) ≠ 0 := Nat.cast_ne_zero.mpr (by omega)
  have hb' : ((b.den : Nat) : Rat) ≠ 0 := Nat.cast_ne_zero.mpr (by omega)
  push_cast
  field_simp

theorem JNum.toRat_mul (a b : JNum) (ha : 0 < a.den) (hb : 0 < b.den) :
    (a * b).toRat = a.toRat * b.toRat := by
  show (JNum.mul a b).toRat = a.toRat * b.toRat
  unfold JNum.mul
  rw [JNum.toRat_norm _ _ (Nat.mul_ne_zero (by omega) (by omega))]
  unfold JNum.toRat
  have ha' : ((a.den : Nat) : Rat) ≠ 0 := Nat.cast_ne_zero.mpr (by omega)
  have hb' : ((b.den : Nat) : Rat) ≠ 0 := Nat.cast_ne_zero.mpr (by omega)
  push_cast
  field_simp

theorem JNum.lt_iff_toRat (a b : JNum) (ha : 0 < a.den) (hb : 0 < b.den) :
    a < b ↔ a.toRat < b.toRat := by
  show JNum.lt a b ↔ a.toRat < b.toRat
  unfold JNum.lt JNum.toRat
  have ha' : (0 : Rat) < (a.den : Rat) := by exact_mod_cast ha
  have hb' : (0 : Rat) < (b.den : Rat) := by exact_mod_cast hb
  rw [div_lt_div_iff₀ ha' hb']
  constructor
  · intro h
    exact_mod_cast h
  · intro h
    exact_mod_cast h

theorem JNum.toRat_zero : (0 : JNum).toRat = 0 := by
  show JNum.toRat ⟨0, 1⟩ = 0
  unfold JNum.toRat
  norm_num

/-! Characterisation of the JS `Map` embedding used by the capacity
validator. -/

theorem phaseGet_cons (a : Int) (b : JNum) (m : List (Int × JNum))
    (k : Int) :
    phaseGet ((a, b) :: m) k = if a = k then some b else phaseGet m k := by
  unfold phaseGet
  by_cases h : a = k
  · rw [List.find?_cons_of_pos _ (by simp [h]), if_pos h]
    rfl
  · rw [List.find?_cons_of_neg _ (by simp [h]), if_neg h]

theorem phaseGet_set_self (m : List (Int × JNum)) (k : Int) (v : JNum) :
    phaseGet (phaseSet m k v) k = some v := by
  induction m with
  | nil =>
      show phaseGet [(k, v)] k = some v
      rw [phaseGet_cons, if_pos rfl]
  | cons q rest ih =>
      obtain ⟨a, b⟩ := q
      unfold phaseSet
      by_cases h : a = k
      · rw [if_pos h, phaseGet_cons, if_pos h]
      · rw [if_neg h, phaseGet_cons, if_neg h]
        exact ih

theorem phaseGet_set_ne (m : List (Int × JNum)) (k : Int) (v : JNum)
    (k' : Int) (h : k' ≠ k) :
    phaseGet (phaseSet m k v) k' = phaseGet m k' := by
  induction m with
  | nil =>
      show phaseGet [(k, v)] k' = phaseGet [] k'
      rw [phaseGet_cons, if_neg (fun hk => h hk.symm)]
  | cons q rest ih =>
      obtain ⟨a, b⟩ := q
      unfold phaseSet
      by_cases ha : a = k
      · subst ha
        rw [if_pos rfl, phaseGet_cons, phaseGet_cons,
          if_neg (fun hk => h hk.symm), if_neg (fun hk => h hk.symm)]
      · rw [if_neg ha, phaseGet_cons, phaseGet_cons]
        by_cases hak : a = k'
        · rw [if_pos hak, if_pos hak]
        · rw [if_neg hak, if_neg hak]
          exact ih

theorem MapWf.getD_den_pos {m : List (Int × JNum)} (h : MapWf m)
    (p : Int) : 0 < ((phaseGet m p).getD 0).den := by
  cases hf : phaseGet m p with
  | none => decide
  | some v =>
      rw [Option.getD_some]
      unfold phaseGet at hf
      cases hfind : m.find? (fun q => q.1 == p) with
      | none => rw [hfind] at hf; simp at hf
      | some q =>
          rw [hfind] at hf
          have hq := List.mem_of_find?_eq_some hfind
          have hv : q.2 = v := by simpa using hf
          rw [← hv]
          exact h q hq

theorem mapWf_set (k : Int) (v : JNum) (hv : 0 < v.den) :
    ∀ m : List (Int × JNum), MapWf m → MapWf (phaseSet m k v) := by
  intro m
  induction m with
  | nil =>
      intro _ kv hkv
      simp only [phaseSet, List.mem_singleton] at hkv
      rw [hkv]
      exact hv
  | cons q rest ih =>
      obtain ⟨a, b⟩ := q
      intro h
      have hrest : MapWf rest := fun kv hkv => h kv (List.mem_cons_of_mem _ hkv)
      have hb : 0 < b.den := h (a, b) (List.mem_cons_self _ _)
      unfold phaseSet
      by_cases ha : a = k
      · rw [if_pos ha]
        intro kv hkv
        rcases List.mem_cons.mp hkv with hkv | hkv
        · rw [hkv]; exact hv
        · exact hrest kv hkv
      · rw [if_neg ha]
        intro kv hkv
        rcases List.mem_cons.mp hkv with hkv | hkv
        · rw [hkv]; exact hb
        · exact ih hrest kv hkv

theorem phaseGet_eq_some_mem {m : List (Int × JNum)} {k : Int} {v : JNum}
    (h : phaseGet m k = some v) : (k, v) ∈ m := by
  unfold phaseGet at h
  cases hf : m.find? (fun p => p.1 == k) with
  | none => rw [hf] at h; simp at h
  | some q =>
      rw [hf] at h
      have hq := List.mem_of_find?_eq_some hf
      have hk := List.find?_some hf
      obtain ⟨q1, q2⟩ := q
      have hk' : q1 = k := by simpa using hk
      have hv : q2 = v := by simpa using h
      rw [← hk', ← hv]
      exact hq

/-- Folding one phase list into a capacity map adds `count p × c` to every
key `p` (in exact rational value), preserving well-formedness. -/
theorem capacityFold_toRat (c : JNum) (hc : 0 < c.den) :
    ∀ (phases : List Int) (m : List (Int × JNum)), MapWf m →
      MapWf (phases.foldl
        (fun m ph => phaseSet m ph ((phaseGet m ph).getD 0 + c)) m) ∧
      ∀ p : Int,
        ((phaseGet (phases.foldl
            (fun m ph => phaseSet m ph ((phaseGet m ph).getD 0 + c)) m) p
          ).getD 0).toRat =
        ((phaseGet m p).getD 0).toRat + (phases.count p : Rat) * c.toRat := by
  intro phases
  induction phases with
  | nil =>
      intro m hm
      refine ⟨hm, fun p => ?_⟩
      simp
  | cons ph rest ih =>
      intro m hm
      have hv : 0 < (((phaseGet m ph).getD 0) + c).den :=
        JNum.add_den_pos _ _ (hm.getD_den_pos ph) hc
      have hm' : MapWf (phaseSet m ph ((phaseGet m ph).getD 0 + c)) :=
        mapWf_set ph _ hv m hm
      obtain ⟨hwf, hval⟩ := ih _ hm'
      simp only [List.foldl_cons]
      refine ⟨hwf, fun p => ?_⟩
      rw [hval p]
      by_cases hp : ph = p
      · subst hp
        rw [phaseGet_set_self, Option.getD_some,
          JNum.toRat_add _ _ (hm.getD_den_pos ph) hc, List.count_cons_self]
        push_cast
        ring
      · rw [phaseGet_set_ne m ph _ p (fun h => hp h.symm),
          List.count_cons_of_ne (fun h => hp h.symm) rest]

/-- `Number(maxConcurrent) || 1` denotes a genuine rational whenever the
field does (positive denominators are an invariant of the embedding, not
an assumption about the data: every JS number has one). -/
theorem effMaxConcurrent_den_pos (t : RTask)
    (h : 0 < (t.maxConcurrent.getD 0).den) :
    0 < (effMaxConcurrent t).den := by
  unfold effMaxConcurrent
  cases hmc : t.maxConcurrent with
  | none => decide
  | some q =>
      rw [hmc, Option.getD_some] at h
      show 0 < (if q = 0 then (1 : JNum) else q).den
      by_cases hq : q = 0
      · rw [if_pos hq]; decide
      · rw [if_neg hq]; exact h

theorem effMaxLoad_den_pos (w : RWorker)
    (h : 0 < (w.maxLoadPerPhase.getD 0).den) :
    0 < (effMaxLoad w).den := by
  unfold effMaxLoad
  cases hml : w.maxLoadPerPhase with
  | none => decide
  | some q =>
      rw [hml, Option.getD_some] at h
      show 0 < (if q = 0 then (8 : JNum) else q).den
      by_cases hq : q = 0
      · rw [if_pos hq]; decide
      · rw [if_neg hq]; exact h

/-- The required-capacity fold computes, for every phase, its start value
plus the occurrence-counted sum of task contributions. -/
theorem reqFold_occ :
    ∀ tasks : List RTask,
    (∀ t ∈ tasks, 0 < (t.duration.getD 0).den ∧
      0 < (t.maxConcurrent.getD 0).den) →
    ∀ m : List (Int × JNum), MapWf m →
      MapWf (tasks.foldl reqStep m) ∧
      ∀ p : Int,
        ((phaseGet (tasks.foldl reqStep m) p).getD 0).toRat =
        ((phaseGet m p).getD 0).toRat + specRequiredOccRat tasks p := by
  intro tasks
  induction tasks with
  | nil =>
      intro _ m hm
      refine ⟨hm, fun p => ?_⟩
      simp [specRequiredOccRat]
  | cons t rest ih =>
      intro hwfs m hm
      obtain ⟨hdden, hmden⟩ := hwfs t (List.mem_cons_self _ _)
      have hrest : ∀ u ∈ rest, 0 < (u.duration.getD 0).den ∧
          0 < (u.maxConcurrent.getD 0).den :=
        fun u hu => hwfs u (List.mem_cons_of_mem _ hu)
      have hocc : ∀ p : Int, specRequiredOccRat (t :: rest) p =
          reqContribRat t p + specRequiredOccRat rest p := by
        intro p
        unfold specRequiredOccRat
        rw [List.map_cons, List.sum_cons]
      simp only [List.foldl_cons]
      cases hpp : t.preferredPhases with
      | none =>
          have hstep : reqStep m t = m := by
            unfold reqStep; rw [hpp]
          have hcontrib : ∀ p : Int, reqContribRat t p = 0 := by
            intro p
            unfold reqContribRat; rw [hpp]
          rw [hstep]
          obtain ⟨hwf, hval⟩ := ih hrest m hm
          refine ⟨hwf, fun p => ?_⟩
          rw [hval p, hocc p, hcontrib p, zero_add]
      | some phases =>
          cases hdur : t.duration with
          | none =>
              have hstep : reqStep m t = m := by
                unfold reqStep; rw [hpp, hdur]
              have hcontrib : ∀ p : Int, reqContribRat t p = 0 := by
                intro p
                unfold reqContribRat; rw [hpp, hdur]
              rw [hstep]
              obtain ⟨hwf, hval⟩ := ih hrest m hm
              refine ⟨hwf, fun p => ?_⟩
              rw [hval p, hocc p, hcontrib p, zero_add]
          | some d =>
              have hd' : 0 < d.den := by
                rw [hdur, Option.getD_some] at hdden
                exact hdden
              have heffden : 0 < (effMaxConcurrent t).den :=
                effMaxConcurrent_den_pos t hmden
              have hcontrib : ∀ p : Int, reqContribRat t p =
                  (phases.count p : Rat) *
                    (d.toRat * (effMaxConcurrent t).toRat) := by
                intro p
                unfold reqContribRat; rw [hpp, hdur]
              by_cases hd0 : d = 0
              · have hstep : reqStep m t = m := by
                  unfold reqStep
                  rw [hpp, hdur]
                  exact if_pos hd0
                rw [hstep]
                obtain ⟨hwf, hval⟩ := ih hrest m hm
                refine ⟨hwf, fun p => ?_⟩
                rw [hval p, hocc p, hcontrib p, hd0, JNum.toRat_zero]
                ring
              · have hstep : reqStep m t = phases.foldl (fun m phase =>
                    phaseSet m phase ((phaseGet m phase).getD 0 +
                      d * effMaxConcurrent t)) m := by
                  unfold reqStep
                  rw [hpp, hdur]
                  exact if_neg hd0
                rw [hstep]
                have hcden : 0 < (d * effMaxConcurrent t).den :=
                  JNum.mul_den_pos d _ hd' heffden
                obtain ⟨hwf1, hval1⟩ :=
                  capacityFold_toRat (d * effMaxConcurrent t) hcden
                    phases m hm
                obtain ⟨hwf, hval⟩ := ih hrest _ hwf1
                refine ⟨hwf, fun p => ?_⟩
                rw [hval p, hval1 p, hocc p, hcontrib p,
                  JNum.toRat_mul d _ hd' heffden]
                ring

/-- The available-capacity fold computes, for every phase, its start
value plus the occurrence-counted sum of worker contributions. -/
theorem availFold_occ :
    ∀ workers : List RWorker,
    (∀ w ∈ workers, 0 < (w.maxLoadPerPhase.getD 0).den) →
    ∀ m : List (Int × JNum), MapWf m →
      MapWf (workers.foldl availStep m) ∧
      ∀ p : Int,
        ((phaseGet (workers.foldl availStep m) p).getD 0).toRat =
        ((phaseGet m p).getD 0).toRat + specAvailableOccRat workers p := by
  intro workers
  induction workers with
  | nil =>
      intro _ m hm
      refine ⟨hm, fun p => ?_⟩
      simp [specAvailableOccRat]
  | cons w rest ih =>
      intro hwfs m hm
      have hqden := hwfs w (List.mem_cons_self _ _)
      have hrest : ∀ u ∈ rest, 0 < (u.maxLoadPerPhase.getD 0).den :=
        fun u hu => hwfs u (List.mem_cons_of_mem _ hu)
      have hocc : ∀ p : Int, specAvailableOccRat (w :: rest) p =
          availContribRat w p + specAvailableOccRat rest p := by
        intro p
        unfold specAvailableOccRat
        rw [List.map_cons, List.sum_cons]
      simp only [List.foldl_cons]
      cases hsl : w.availableSlots with
      | none =>
          have hstep : availStep m w = m := by
            unfold availStep; rw [hsl]
          have hcontrib : ∀ p : Int, availContribRat w p = 0 := by
            intro p
            unfold availContribRat; rw [hsl]
          rw [hstep]
          obtain ⟨hwf, hval⟩ := ih hrest m hm
          refine ⟨hwf, fun p => ?_⟩
          rw [hval p, hocc p, hcontrib p, zero_add]
      | some slots =>
          have heffden : 0 < (effMaxLoad w).den :=
            effMaxLoad_den_pos w hqden
          have hcontrib : ∀ p : Int, availContribRat w p =
              (slots.count p : Rat) * (effMaxLoad w).toRat := by
            intro p
            unfold availContribRat; rw [hsl]
          have hstep : availStep m w = slots.foldl (fun m phase =>
              phaseSet m phase ((phaseGet m phase).getD 0 +
                effMaxLoad w)) m := by
            unfold availStep
            rw [hsl]
          rw [hstep]
          obtain ⟨hwf1, hval1⟩ :=
            capacityFold_toRat (effMaxLoad w) heffden slots m hm
          obtain ⟨hwf, hval⟩ := ih hrest _ hwf1
          refine ⟨hwf, fun p => ?_⟩
          rw [hval p, hval1 p, hocc p, hcontrib p]
          ring

theorem phaseSet_keys_mem (k : Int) (v : JNum) (x : Int) :
    ∀ m : List (Int × JNum), x ∈ (phaseSet m k v).map Prod.fst →
      x ∈ m.map Prod.fst ∨ x = k := by
  intro m
  induction m with
  | nil =>
      intro h
      simp only [phaseSet, List.map_cons, List.map_nil,
        List.mem_singleton] at h
      exact Or.inr h
  | cons a rest ih =>
      obtain ⟨a1, a2⟩ := a
      unfold phaseSet
      by_cases ha : a1 = k
      · rw [if_pos ha]
        intro h
        simp only [List.map_cons, List.mem_cons] at h ⊢
        rcases h with h | h
        · exact Or.inl (Or.inl h)
        · exact Or.inl (Or.inr h)
      · rw [if_neg ha]
        intro h
        simp only [List.map_cons, List.mem_cons] at h ⊢
        rcases h with h | h
        · exact Or.inl (Or.inl h)
        · rcases ih h with h | h
          · exact Or.inl (Or.inr h)
          · exact Or.inr h

theorem phaseSet_keys_nodup (k : Int) (v : JNum) :
    ∀ m : List (Int × JNum), (m.map Prod.fst).Nodup →
      ((phaseSet m k v).map Prod.fst).Nodup := by
  intro m
  induction m with
  | nil =>
      intro _
      simp [phaseSet]
  | cons a rest ih =>
      obtain ⟨a1, a2⟩ := a
      intro h
      rw [List.map_cons, List.nodup_cons] at h
      obtain ⟨hnot, hrest⟩ := h
      unfold phaseSet
      by_cases ha : a1 = k
      · rw [if_pos ha, List.map_cons, List.nodup_cons]
        exact ⟨hnot, hrest⟩
      · rw [if_neg ha, List.map_cons, List.nodup_cons]
        refine ⟨fun hmem => ?_, ih hrest⟩
        rcases phaseSet_keys_mem k v a1 rest hmem with h | h
        · exact hnot h
        · exact ha h

theorem foldPhaseSet_keys_nodup (g : List (Int × JNum) → Int → JNum) :
    ∀ (phases : List Int) (m : List (Int × JNum)),
      (m.map Prod.fst).Nodup →
      ((phases.foldl (fun m ph => phaseSet m ph (g m ph)) m).map
        Prod.fst).Nodup := by
  intro phases
  induction phases with
  | nil => intro m hm; exact hm
  | cons ph rest ih =>
      intro m hm
      simp only [List.foldl_cons]
      exact ih _ (phaseSet_keys_nodup ph (g m ph) m hm)

theorem requiredCapacityMap_keys_nodup (tasks : List RTask) :
    ((requiredCapacityMap tasks).map Prod.fst).Nodup := by
  suffices h : ∀ ts : List RTask, ∀ m : List (Int × JNum),
      (m.map Prod.fst).Nodup →
      ((ts.foldl reqStep m).map Prod.fst).Nodup from
    h tasks [] (by simp)
  intro ts
  induction ts with
  | nil => intro m hm; exact hm
  | cons t rest ih =>
      intro m hm
      simp only [List.foldl_cons]
      apply ih
      unfold reqStep
      split
      · split
        · exact hm
        · exact foldPhaseSet_keys_nodup _ _ m hm
      · exact hm

theorem flatMapIte_length {α β : Type} (l : List α) (q : α → Prop)
    [DecidablePred q] (f : α → β) :
    (l.flatMap (fun a => if q a then [f a] else [])).length =
      (l.filter (fun a => decide (q a))).length := by
  induction l with
  | nil => rfl
  | cons a rest ih =>
      rw [List.flatMap_cons _ _ _, List.filter_cons]
      by_cases h : q a
      · simp [h, ih]
        try omega
      · simp [h, ih]

/-- **C5 (counterexample).** Duplicate phase entries — which the schema's
own `preferredPhases` transform produces from the raw cell `"1,1"` — are
accumulated once per occurrence: the stored required capacity for phase 1
is 20 while the claim's sum over tasks preferring the phase is 10, and a
saturation error is emitted although the available capacity 15 covers
that claimed sum. -/
theorem capacity_double_counts_duplicate_phases :
    parsePreferredPhases "1,1" = [1, 1] ∧
    (phaseGet (requiredCapacityMap [cx5Task]) 1).getD 0 =
      (⟨20, 1⟩ : JNum) ∧
    specRequiredRat [cx5Task] 1 = 10 ∧
    specAvailableRat [cx5Worker] 1 = 15 ∧
    specRequiredRat [cx5Task] 1 ≤ specAvailableRat [cx5Worker] 1 ∧
    validateWorkerCapacity [cx5Worker] [cx5Task] =
      [capacityError 1 ⟨20, 1⟩ ⟨15, 1⟩] := by
  have hreq : specRequiredRat [cx5Task] 1 = 10 := by
    have hf : ([cx5Task].filter
        (fun t => (t.preferredPhases.getD []).contains 1)) = [cx5Task] := by
      decide
    unfold specRequiredRat
    rw [hf, List.map_cons, List.map_nil, List.sum_cons, List.sum_nil]
    rw [show cx5Task.duration.getD 0 = (5 : JNum) from rfl,
      show cx5Task.maxConcurrent.getD 0 = (2 : JNum) from rfl]
    unfold JNum.toRat
    rw [show ((5 : JNum)).num = (5 : Int) from rfl,
      show ((5 : JNum)).den = (1 : Nat) from rfl,
      show ((2 : JNum)).num = (2 : Int) from rfl,
      show ((2 : JNum)).den = (1 : Nat) from rfl]
    norm_num
  have hav : specAvailableRat [cx5Worker] 1 = 15 := by
    have hf : ([cx5Worker].filter
        (fun w => (w.availableSlots.getD []).contains 1)) = [cx5Worker] := by
      decide
    unfold specAvailableRat
    rw [hf, List.map_cons, List.map_nil, List.sum_cons, List.sum_nil]
    rw [show cx5Worker.maxLoadPerPhase.getD 0 = (15 : JNum) from rfl]
    unfold JNum.toRat
    rw [show ((15 : JNum)).num = (15 : Int) from rfl,
      show ((15 : JNum)).den = (1 : Nat) from rfl]
    norm_num
  refine ⟨by decide, by decide, hreq, hav, ?_, by decide⟩
  rw [hreq, hav]
  norm_num

/-- **C5 (amended).** `validateWorkerCapacity` accumulates capacities once
per phase occurrence: for every worker and task collection (positive
`JNum` denominators being an invariant of the embedding — every JS number
has one — not a restriction on the data), the stored per-phase required
capacity is exactly Σ over tasks with `preferredPhases` and a duration of
count(phase) × duration × (maxConcurrent || 1), the stored available
capacity is exactly Σ over workers of count(phase) × (maxLoadPerPhase ||
8), exactly one error is emitted per saturated stored phase key (the keys
being duplicate-free), every error carries row 0, and every phase whose
positive required sum exceeds its available sum is reported. -/
theorem validateWorkerCapacity_occurrence_spec (workers : List RWorker)
    (tasks : List RTask)
    (htask : ∀ t ∈ tasks, 0 < (t.duration.getD 0).den ∧
      0 < (t.maxConcurrent.getD 0).den)
    (hworker : ∀ w ∈ workers, 0 < (w.maxLoadPerPhase.getD 0).den)
    (phase : Int) :
    ((phaseGet (requiredCapacityMap tasks) phase).getD 0).toRat =
        specRequiredOccRat tasks phase ∧
    ((phaseGet (availableCapacityMap workers) phase).getD 0).toRat =
        specAvailableOccRat workers phase ∧
    (validateWorkerCapacity workers tasks).length =
      ((requiredCapacityMap tasks).filter (fun p =>
        (phaseGet (availableCapacityMap workers) p.1).getD 0 < p.2)).length ∧
    ((requiredCapacityMap tasks).map Prod.fst).Nodup ∧
    (∀ e ∈ validateWorkerCapacity workers tasks, e.row = 0) ∧
    (0 < specRequiredOccRat tasks phase →
      specAvailableOccRat workers phase < specRequiredOccRat tasks phase →
      capacityError phase
        ((phaseGet (requiredCapacityMap tasks) phase).getD 0)
        ((phaseGet (availableCapacityMap workers) phase).getD 0) ∈
        validateWorkerCapacity workers tasks) := by
  obtain ⟨hreqwf, hreqval⟩ :=
    reqFold_occ tasks htask [] (by intro kv hkv; simp at hkv)
  obtain ⟨havwf, havval⟩ :=
    availFold_occ workers hworker [] (by intro kv hkv; simp at hkv)
  have h0 : ∀ p : Int, ((phaseGet [] p).getD 0).toRat = 0 := by
    intro p
    rw [show phaseGet [] p = none from rfl]
    exact JNum.toRat_zero
  have hreq : ((phaseGet (requiredCapacityMap tasks) phase).getD 0).toRat =
      specRequiredOccRat tasks phase := by
    unfold requiredCapacityMap
    rw [hreqval phase, h0 phase, zero_add]
  have hav : ((phaseGet (availableCapacityMap workers) phase).getD 0).toRat =
      specAvailableOccRat workers phase := by
    unfold availableCapacityMap
    rw [havval phase, h0 phase, zero_add]
  refine ⟨hreq, hav, ?_, requiredCapacityMap_keys_nodup tasks, ?_, ?_⟩
  · exact flatMapIte_length (requiredCapacityMap tasks)
      (fun p => (phaseGet (availableCapacityMap workers) p.1).getD 0 < p.2)
      (fun p => capacityError p.1 p.2
        ((phaseGet (availableCapacityMap workers) p.1).getD 0))
  · intro e he
    simp only [validateWorkerCapacity, List.mem_flatMap] at he
    obtain ⟨p, hp, he⟩ := he
    split at he
    · rw [List.mem_singleton] at he
      rw [he]
      rfl
    · simp at he
  · intro hreqpos hsat
    cases hr : phaseGet (requiredCapacityMap tasks) phase with
    | none =>
        exfalso
        rw [hr] at hreq
        rw [show (Option.getD (none : Option JNum) 0) = (0 : JNum) from rfl,
          JNum.toRat_zero] at hreq
        rw [← hreq] at hreqpos
        exact lt_irrefl 0 hreqpos
    | some r =>
        have hmem : (phase, r) ∈ requiredCapacityMap tasks :=
          phaseGet_eq_some_mem hr
        have hrden : 0 < r.den := hreqwf (phase, r) hmem
        have haden :
            0 < ((phaseGet (availableCapacityMap workers) phase).getD 0).den :=
          MapWf.getD_den_pos havwf phase
        have hrrat : r.toRat = specRequiredOccRat tasks phase := by
          rw [hr, Option.getD_some] at hreq
          exact hreq
        have hlt : (phaseGet (availableCapacityMap workers) phase).getD 0 < r := by
          rw [JNum.lt_iff_toRat _ _ haden hrden, hav, hrrat]
          exact hsat
        simp only [Option.getD_some]
        simp only [validateWorkerCapacity, List.mem_flatMap]
        refine ⟨(phase, r), hmem, ?_⟩
        dsimp only
        rw [if_pos hlt]
        exact List.mem_singleton.mpr rfl

theorem validateWorkerCapacity_occurrence_witness :
    validateWorkerCapacity [c5Worker] [c5Task] =
      [capacityError 1 ⟨10, 1⟩ ⟨8, 1⟩] ∧
    (((phaseGet (requiredCapacityMap [c5Task]) 1).getD 0).toRat =
        specRequiredOccRat [c5Task] 1 ∧
    ((phaseGet (availableCapacityMap [c5Worker]) 1).getD 0).toRat =
        specAvailableOccRat [c5Worker] 1 ∧
    (validateWorkerCapacity [c5Worker] [c5Task]).length =
      ((requiredCapacityMap [c5Task]).filter (fun p =>
        (phaseGet (availableCapacityMap [c5Worker]) p.1).getD 0 <
          p.2)).length ∧
    ((requiredCapacityMap [c5Task]).map Prod.fst).Nodup ∧
    (∀ e ∈ validateWorkerCapacity [c5Worker] [c5Task], e.row = 0) ∧
    (0 < specRequiredOccRat [c5Task] 1 →
      specAvailableOccRat [c5Worker] 1 < specRequiredOccRat [c5Task] 1 →
      capacityError 1
        ((phaseGet (requiredCapacityMap [c5Task]) 1).getD 0)
        ((phaseGet (availableCapacityMap [c5Worker]) 1).getD 0) ∈
        validateWorkerCapacity [c5Worker] [c5Task])) :=
  ⟨by decide,
   validateWorkerCapacity_occurrence_spec [c5Worker] [c5Task]
     (by decide) (by decide) 1⟩

/-! Elementary facts about the JS `Set`/`Map`/`Array` embeddings used by
the circular-dependency search. -/

theorem contains_iff_mem_str (l : List String) (x : String) :
    l.contains x = true ↔ x ∈ l := by simp

theorem mem_jsSetAdd (l : List String) (x y : String) :
    y ∈ jsSetAdd l x ↔ y ∈ l ∨ y = x := by
  unfold jsSetAdd
  by_cases h : l.contains x
  · rw [if_pos h]
    constructor
    · exact Or.inl
    · rintro (hy | hy)
      · exact hy
      · rw [hy]
        exact (contains_iff_mem_str l x).mp h
  · rw [if_neg h]
    simp

theorem nodup_jsSetAdd (l : List String) (x : String) (h : l.Nodup) :
    (jsSetAdd l x).Nodup := by
  unfold jsSetAdd
  by_cases hc : l.contains x
  · rw [if_pos hc]
    exact h
  · rw [if_neg hc]
    have hx : x ∉ l := fun hm => hc ((contains_iff_mem_str l x).mpr hm)
    rw [List.nodup_append]
    exact ⟨h, List.nodup_singleton x,
      fun a ha hax => hx (List.mem_singleton.mp hax ▸ ha)⟩

theorem mem_of_mem_jsSetRemove (l : List String) (x y : String)
    (h : y ∈ jsSetRemove l x) : y ∈ l :=
  List.mem_of_mem_filter h

theorem jsSetList_facts (xs : List String) :
    (jsSetList xs).Nodup ∧ (jsSetList xs).length ≤ xs.length := by
  suffices h : ∀ (ys : List String) (acc : List String), acc.Nodup →
      (ys.foldl (fun acc x => if acc.contains x then acc else acc ++ [x])
        acc).Nodup ∧
      (ys.foldl (fun acc x => if acc.contains x then acc else acc ++ [x])
        acc).length ≤ acc.length + ys.length by
    have h2 := h xs [] List.nodup_nil
    refine ⟨h2.1, ?_⟩
    have h3 := h2.2
    simp only [List.length_nil, Nat.zero_add] at h3
    exact h3
  intro ys
  induction ys with
  | nil =>
      intro acc hacc
      exact ⟨hacc, by simp⟩
  | cons y rest ih =>
      intro acc hacc
      simp only [List.foldl_cons]
      have hstep : (if acc.contains y then acc else acc ++ [y]) =
          jsSetAdd acc y := rfl
      rw [hstep]
      obtain ⟨h1, h2⟩ := ih (jsSetAdd acc y) (nodup_jsSetAdd acc y hacc)
      refine ⟨h1, ?_⟩
      have hlen : (jsSetAdd acc y).length ≤ acc.length + 1 := by
        unfold jsSetAdd
        by_cases hc : acc.contains y
        · rw [if_pos hc]; omega
        · rw [if_neg hc]; simp
      rw [List.length_cons]
      omega

theorem taskIdSet_nodup (tasks : List RTask) : (taskIdSet tasks).Nodup :=
  (jsSetList_facts _).1

theorem taskIdSet_length_le (tasks : List RTask) :
    (taskIdSet tasks).length ≤ tasks.length := by
  have h1 := (jsSetList_facts
    ((tasks.map (·.id)).filter (fun i => i ≠ ""))).2
  have h2 : ((tasks.map (·.id)).filter (fun i => i ≠ "")).length ≤
      (tasks.map (·.id)).length := List.length_filter_le _ _
  have h3 : (tasks.map (·.id)).length = tasks.length := List.length_map _ _
  calc (taskIdSet tasks).length
      ≤ ((tasks.map (·.id)).filter (fun i => i ≠ "")).length := h1
    _ ≤ tasks.length := by rw [← h3]; exact h2

theorem jsMapGet_eq_some_mem {β : Type} {m : List (String × β)}
    {k : String} {v : β} (h : jsMapGet m k = some v) : (k, v) ∈ m := by
  unfold jsMapGet at h
  cases hf : m.find? (fun p => p.1 == k) with
  | none => rw [hf] at h; simp at h
  | some q =>
      rw [hf] at h
      have hq := List.mem_of_find?_eq_some hf
      have hk := List.find?_some hf
      obtain ⟨q1, q2⟩ := q
      have hk' : q1 = k := by simpa using hk
      have hv : q2 = v := by simpa using h
      rw [← hk', ← hv]
      exact hq

theorem jsMapSet_mem {β : Type} (k : String) (v : β) :
    ∀ m : List (String × β), ∀ kv ∈ jsMapSet m k v, kv ∈ m ∨ kv = (k, v) := by
  intro m
  induction m with
  | nil =>
      intro kv hkv
      simp only [jsMapSet, List.mem_singleton] at hkv
      exact Or.inr hkv
  | cons q rest ih =>
      obtain ⟨k', v'⟩ := q
      intro kv hkv
      unfold jsMapSet at hkv
      by_cases hk : k' = k
      · rw [if_pos hk] at hkv
        rcases List.mem_cons.mp hkv with h | h
        · rw [h, hk]
          exact Or.inr rfl
        · exact Or.inl (List.mem_cons_of_mem _ h)
      · rw [if_neg hk] at hkv
        rcases List.mem_cons.mp hkv with h | h
        · rw [h]
          exact Or.inl (List.mem_cons_self _ _)
        · rcases ih kv h with h2 | h2
          · exact Or.inl (List.mem_cons_of_mem _ h2)
          · exact Or.inr h2

/-- Every dependency list `buildDependencyGraph` stores is filtered by
membership in the id set, so the graph's edges stay inside it. -/
theorem buildDependencyGraph_closed (taskIds : List String)
    (tasks : List RTask) :
    graphClosed taskIds (buildDependencyGraph taskIds tasks) := by
  suffices h : ∀ (ts : List RTask) (m : List (String × List String)),
      (∀ kv ∈ m, ∀ d ∈ kv.2, d ∈ taskIds) →
      ∀ kv ∈ ts.foldl (fun m t =>
        match t.dependencies with
        | .str s =>
            jsMapSet m t.id
              (((sSplit s ',').map sTrim).filter
                (fun d => d ≠ "" ∧ taskIds.contains d))
        | _ => jsMapSet m t.id []) m, ∀ d ∈ kv.2, d ∈ taskIds by
    intro k l hget d hd
    exact h tasks [] (by simp) (k, l)
      (jsMapGet_eq_some_mem hget) d hd
  intro ts
  induction ts with
  | nil => intro m hm; exact hm
  | cons t rest ih =>
      intro m hm
      simp only [List.foldl_cons]
      apply ih
      intro kv hkv d hd
      have hfilter : ∀ s : String, d ∈ ((sSplit s ',').map sTrim).filter
          (fun x => x ≠ "" ∧ taskIds.contains x) → d ∈ taskIds := by
        intro s hdm
        have hp := List.of_mem_filter hdm
        have hp2 : d ≠ "" ∧ taskIds.contains d := by simpa using hp
        exact (contains_iff_mem_str _ _).mp hp2.2
      cases hdep : t.dependencies with
      | str s =>
          rw [hdep] at hkv
          rcases jsMapSet_mem _ _ m kv hkv with h2 | h2
          · exact hm kv h2 d hd
          · rw [h2] at hd
            exact hfilter s hd
      | undef =>
          rw [hdep] at hkv
          rcases jsMapSet_mem _ _ m kv hkv with h2 | h2
          · exact hm kv h2 d hd
          · rw [h2] at hd
            simp at hd
      | arr l =>
          rw [hdep] at hkv
          rcases jsMapSet_mem _ _ m kv hkv with h2 | h2
          · exact hm kv h2 d hd
          · rw [h2] at hd
            simp at hd

theorem filter_length_mono {α : Type} (p q : α → Bool)
    (h : ∀ x, q x = true → p x = true) :
    ∀ l : List α, (l.filter q).length ≤ (l.filter p).length := by
  intro l
  induction l with
  | nil => exact le_refl _
  | cons a rest ih =>
      rw [List.filter_cons, List.filter_cons]
      by_cases hq : q a
      · rw [if_pos hq, if_pos (h a hq)]
        simpa using ih
      · rw [if_neg hq]
        by_cases hp : p a
        · rw [if_pos hp]
          exact le_trans ih (by simp)
        · rw [if_neg hp]
          exact ih

theorem ucount_le_length (ids : List String) (st : DfsState) :
    ucount ids st ≤ ids.length := List.length_filter_le _ _

/-- Visiting a new id strictly shrinks the unvisited count. -/
theorem ucount_visit (v : List String) (x : String) (hnv : x ∉ v) :
    ∀ ids : List String, x ∈ ids →
      (ids.filter (fun i => !(jsSetAdd v x).contains i)).length + 1 ≤
        (ids.filter (fun i => !v.contains i)).length := by
  have hmono := filter_length_mono (fun i => !v.contains i)
    (fun i => !(jsSetAdd v x).contains i)
    (by
      intro i hi
      have h1 : i ∉ jsSetAdd v x := by simpa using hi
      have h2 : i ∉ v := fun hm => h1 ((mem_jsSetAdd v x i).mpr (Or.inl hm))
      simpa using h2)
  intro ids
  induction ids with
  | nil => intro hx; simp at hx
  | cons a rest ih =>
      intro hx
      rw [List.filter_cons, List.filter_cons]
      by_cases hax : a = x
      · subst hax
        have haadd : a ∈ jsSetAdd v a := (mem_jsSetAdd v a a).mpr (Or.inr rfl)
        have hnew : ¬ ((!(jsSetAdd v a).contains a) = true) := by
          simp [haadd]
        have hold : ((!v.contains a) = true) := by simp [hnv]
        rw [if_neg hnew, if_pos hold, List.length_cons]
        have := hmono rest
        omega
      · have hagree : ((!(jsSetAdd v x).contains a) = true) ↔
            ((!v.contains a) = true) := by
          constructor
          · intro h1
            have h2 : a ∉ jsSetAdd v x := by simpa using h1
            have h3 : a ∉ v :=
              fun hm => h2 ((mem_jsSetAdd v x a).mpr (Or.inl hm))
            simpa using h3
          · intro h1
            have h2 : a ∉ v := by simpa using h1
            have h3 : a ∉ jsSetAdd v x := by
              intro hm
              rcases (mem_jsSetAdd v x a).mp hm with h4 | h4
              · exact h2 h4
              · exact hax h4
            simpa using h3
        have hx' : x ∈ rest := by
          rcases List.mem_cons.mp hx with h3 | h3
          · exact absurd h3.symm hax
          · exact h3
        by_cases hold : (!v.contains a) = true
        · rw [if_pos hold, if_pos (hagree.mpr hold)]
          rw [List.length_cons, List.length_cons]
          have := ih hx'
          omega
        · rw [if_neg hold, if_neg (fun hq => hold (hagree.mp hq))]
          exact ih hx'

theorem jsIndexOfAux_append_cons (x : String) :
    ∀ (path rest : List String) (i : Nat), x ∉ path →
      jsIndexOfAux x (path ++ x :: rest) i = some (path.length + i) := by
  intro path
  induction path with
  | nil =>
      intro rest i _
      simp [jsIndexOfAux]
  | cons b tl ih =>
      intro rest i hx
      have hbx : b ≠ x := fun h => hx (h ▸ List.mem_cons_self b tl)
      show jsIndexOfAux x (b :: (tl ++ x :: rest)) i = _
      unfold jsIndexOfAux
      rw [if_neg hbx, ih rest (i + 1) (fun hm => hx (List.mem_cons_of_mem b hm))]
      rw [List.length_cons]
      congr 1
      omega

theorem jsIndexOf_append_cons (path rest : List String) (x : String)
    (hx : x ∉ path) :
    jsIndexOf (path ++ x :: rest) x = (path.length : Int) := by
  unfold jsIndexOf
  rw [jsIndexOfAux_append_cons x path rest 0 hx]
  simp

/-- The cycle slice the code computes when it revisits `a` after walking
`a → b → c`, provided `a` was not already on the path. -/
theorem cycleSlice_eval (path : List String) (a b c : String)
    (h : a ∉ path) :
    jsSliceFrom (path ++ [a, b, c]) (jsIndexOf (path ++ [a, b, c]) a) ++
      [a] = [a, b, c, a] := by
  have h1 : jsIndexOf (path ++ [a, b, c]) a = (path.length : Int) :=
    jsIndexOf_append_cons path [b, c] a h
  rw [h1]
  unfold jsSliceFrom
  rw [if_neg (not_lt.mpr (Int.natCast_nonneg path.length))]
  rw [Int.toNat_natCast, List.drop_left]
  rfl

/-- One unfolding of the search, with the dependency loop's result named
by projections. -/
theorem hasCycle_succ (g : List (String × List String))
    (rowMap : List (String × Nat)) (fuel : Nat) (taskId : String)
    (path : List String) (st : DfsState) :
    hasCycle g rowMap (fuel + 1) taskId path st =
      if st.stack.contains taskId then
        (true, { st with
          errors := st.errors ++
            cycleErrors rowMap
              (jsSliceFrom path (jsIndexOf path taskId) ++ [taskId]) })
      else if st.visited.contains taskId then (false, st)
      else
        let st1 : DfsState :=
          { st with visited := jsSetAdd st.visited taskId,
                    stack := jsSetAdd st.stack taskId }
        let r := ((jsMapGet g taskId).getD []).foldl
          (fun acc d =>
            if acc.1 then acc
            else hasCycle g rowMap fuel d (path ++ [taskId]) acc.2)
          (false, st1)
        if r.1 then (true, r.2)
        else (false, { r.2 with stack := jsSetRemove r.2.stack taskId }) :=
  rfl

/-- One `hasCycle` call preserves the DFS invariants, only grows the
visited set and the error list, and (given fuel) marks its argument
visited. -/
theorem hasCycle_facts (g : List (String × List String))
    (rowMap : List (String × Nat)) (ids : List String)
    (hg : graphClosed ids g) :
    ∀ (fuel : Nat) (taskId : String) (path : List String) (st : DfsState),
      taskId ∈ ids → dfsInv ids st →
      dfsInv ids (hasCycle g rowMap fuel taskId path st).2 ∧
      (∀ x ∈ st.visited,
        x ∈ (hasCycle g rowMap fuel taskId path st).2.visited) ∧
      (∀ e ∈ st.errors,
        e ∈ (hasCycle g rowMap fuel taskId path st).2.errors) ∧
      (0 < fuel → taskId ∈ (hasCycle g rowMap fuel taskId path st).2.visited) := by
  intro fuel
  induction fuel with
  | zero =>
      intro taskId path st htid hinv
      exact ⟨hinv, fun x hx => hx, fun e he => he,
        fun h => absurd h (by decide)⟩
  | succ fuel ih =>
      intro taskId path st htid hinv
      rw [hasCycle_succ]
      by_cases h1 : st.stack.contains taskId = true
      · rw [if_pos h1]
        refine ⟨⟨hinv.1, hinv.2.1, hinv.2.2⟩, fun x hx => hx, ?_, ?_⟩
        · intro e he
          exact List.mem_append_left _ he
        · intro _
          exact hinv.1 taskId ((contains_iff_mem_str _ _).mp h1)
      · rw [if_neg h1]
        by_cases h2 : st.visited.contains taskId = true
        · rw [if_pos h2]
          exact ⟨hinv, fun x hx => hx, fun e he => he,
            fun _ => (contains_iff_mem_str _ _).mp h2⟩
        · rw [if_neg h2]
          dsimp only
          have hinv1 : dfsInv ids
              { st with visited := jsSetAdd st.visited taskId,
                        stack := jsSetAdd st.stack taskId } := by
            refine ⟨?_, ?_, ?_⟩
            · intro x hx
              rcases (mem_jsSetAdd _ _ _).mp hx with h | h
              · exact (mem_jsSetAdd _ _ _).mpr (Or.inl (hinv.1 x h))
              · exact (mem_jsSetAdd _ _ _).mpr (Or.inr h)
            · intro x hx
              rcases (mem_jsSetAdd _ _ _).mp hx with h | h
              · exact hinv.2.1 x h
              · exact h ▸ htid
            · exact nodup_jsSetAdd _ _ hinv.2.2
          have hdeps : ∀ d ∈ (jsMapGet g taskId).getD [], d ∈ ids := by
            intro d hd
            cases hget : jsMapGet g taskId with
            | none => rw [hget] at hd; simp at hd
            | some l =>
                rw [hget] at hd
                exact hg taskId l hget d hd
          have hfold : ∀ (ds : List String), (∀ d ∈ ds, d ∈ ids) →
              ∀ (acc : Bool × DfsState), dfsInv ids acc.2 →
              dfsInv ids (ds.foldl (fun acc d =>
                if acc.1 then acc
                else hasCycle g rowMap fuel d (path ++ [taskId]) acc.2)
                acc).2 ∧
              (∀ x ∈ acc.2.visited, x ∈ (ds.foldl (fun acc d =>
                if acc.1 then acc
                else hasCycle g rowMap fuel d (path ++ [taskId]) acc.2)
                acc).2.visited) ∧
              (∀ e ∈ acc.2.errors, e ∈ (ds.foldl (fun acc d =>
                if acc.1 then acc
                else hasCycle g rowMap fuel d (path ++ [taskId]) acc.2)
                acc).2.errors) := by
            intro ds
            induction ds with
            | nil =>
                intro _ acc hacc
                exact ⟨hacc, fun x hx => hx, fun e he => he⟩
            | cons d rest ihd =>
                intro hds acc hacc
                simp only [List.foldl_cons]
                by_cases hb : acc.1 = true
                · rw [if_pos hb]
                  exact ihd (fun u hu => hds u (List.mem_cons_of_mem _ hu))
                    acc hacc
                · rw [if_neg hb]
                  obtain ⟨ha1, ha2, ha3, _⟩ :=
                    ih d (path ++ [taskId]) acc.2
                      (hds d (List.mem_cons_self _ _)) hacc
                  obtain ⟨hb1, hb2, hb3⟩ :=
                    ihd (fun u hu => hds u (List.mem_cons_of_mem _ hu))
                      (hasCycle g rowMap fuel d (path ++ [taskId]) acc.2) ha1
                  exact ⟨hb1, fun x hx => hb2 x (ha2 x hx),
                    fun e he => hb3 e (ha3 e he)⟩
          obtain ⟨hf1, hf2, hf3⟩ := hfold ((jsMapGet g taskId).getD [])
            hdeps
            (false, { st with visited := jsSetAdd st.visited taskId,
                              stack := jsSetAdd st.stack taskId }) hinv1
          rcases hfr : ((jsMapGet g taskId).getD []).foldl
              (fun acc d =>
                if acc.1 then acc
                else hasCycle g rowMap fuel d (path ++ [taskId]) acc.2)
              (false, { st with visited := jsSetAdd st.visited taskId,
                                stack := jsSetAdd st.stack taskId }) with ⟨b, st2⟩
          rw [hfr] at hf1 hf2 hf3
          dsimp only at hf1 hf2 hf3 ⊢
          have hmono : ∀ x ∈ st.visited, x ∈ st2.visited :=
            fun x hx => hf2 x ((mem_jsSetAdd _ _ _).mpr (Or.inl hx))
          have hself : taskId ∈ st2.visited :=
            hf2 taskId ((mem_jsSetAdd _ _ _).mpr (Or.inr rfl))
          cases b with
          | true =>
              rw [hfr]
              dsimp only
              rw [if_pos rfl]
              exact ⟨hf1, hmono, fun e he => hf3 e he, fun _ => hself⟩
          | false =>
              rw [hfr]
              dsimp only
              rw [if_neg Bool.false_ne_true]
              refine ⟨⟨?_, hf1.2.1, hf1.2.2⟩, hmono,
                fun e he => hf3 e he, fun _ => hself⟩
              intro x hx
              exact hf1.1 x (mem_of_mem_jsSetRemove _ _ _ hx)

/-- The driver loop preserves the invariants, only grows the visited set
and the error list, and on return has visited every id it iterated
over. -/
theorem cycleSearch_facts (g : List (String × List String))
    (rowMap : List (String × Nat)) (ids0 : List String)
    (hg : graphClosed ids0 g) (fuel : Nat) (hfuel : 0 < fuel) :
    ∀ ids : List String, (∀ x ∈ ids, x ∈ ids0) →
    ∀ st : DfsState, dfsInv ids0 st →
      dfsInv ids0 (cycleSearch g rowMap fuel ids st) ∧
      (∀ x ∈ st.visited, x ∈ (cycleSearch g rowMap fuel ids st).visited) ∧
      (∀ e ∈ st.errors, e ∈ (cycleSearch g rowMap fuel ids st).errors) ∧
      (∀ x ∈ ids, x ∈ (cycleSearch g rowMap fuel ids st).visited) := by
  intro ids
  induction ids with
  | nil =>
      intro _ st hinv
      exact ⟨hinv, fun x hx => hx, fun e he => he, by simp⟩
  | cons a rest ih =>
      intro hsub st hinv
      have hsubr : ∀ x ∈ rest, x ∈ ids0 :=
        fun x hx => hsub x (List.mem_cons_of_mem _ hx)
      have hstep : cycleSearch g rowMap fuel (a :: rest) st =
          cycleSearch g rowMap fuel rest
            (if st.visited.contains a then st
             else (hasCycle g rowMap fuel a [] st).2) := rfl
      rw [hstep]
      by_cases ha : st.visited.contains a = true
      · rw [if_pos ha]
        obtain ⟨h1, h2, h3, h4⟩ := ih hsubr st hinv
        refine ⟨h1, h2, h3, ?_⟩
        intro x hx
        rcases List.mem_cons.mp hx with hx | hx
        · exact hx ▸ h2 a ((contains_iff_mem_str _ _).mp ha)
        · exact h4 x hx
      · rw [if_neg ha]
        obtain ⟨hc1, hc2, hc3, hc4⟩ := hasCycle_facts g rowMap ids0 hg
          fuel a [] st (hsub a (List.mem_cons_self _ _)) hinv
        obtain ⟨h1, h2, h3, h4⟩ :=
          ih hsubr (hasCycle g rowMap fuel a [] st).2 hc1
        refine ⟨h1, fun x hx => h2 x (hc2 x hx),
          fun e he => h3 e (hc3 e he), ?_⟩
        intro x hx
        rcases List.mem_cons.mp hx with hx | hx
        · exact hx ▸ h2 a (hc4 hfuel)
        · exact h4 x hx

/-- **C4 (amended).** The global visited set of the circular-dependency
search never holds a task id twice, and after the driver loop it holds
exactly the deduplicated task-id set, so its size — and with it the
number of node expansions — is bounded by the number of tasks.  (The
claim's further assertion that at most one cycle is reported per
weakly-connected cluster is refuted separately.) -/
theorem cycleSearch_visits_each_task_once (tasks : List RTask) :
    (cycleSearch (buildDependencyGraph (taskIdSet tasks) tasks)
        (buildTaskRowMap tasks) (tasks.length + 1) (taskIdSet tasks)
        ⟨[], [], []⟩).visited.Nodup ∧
    (∀ x, x ∈ (cycleSearch (buildDependencyGraph (taskIdSet tasks) tasks)
        (buildTaskRowMap tasks) (tasks.length + 1) (taskIdSet tasks)
        ⟨[], [], []⟩).visited ↔ x ∈ taskIdSet tasks) ∧
    (cycleSearch (buildDependencyGraph (taskIdSet tasks) tasks)
        (buildTaskRowMap tasks) (tasks.length + 1) (taskIdSet tasks)
        ⟨[], [], []⟩).visited.length ≤ tasks.length := by
  obtain ⟨hinv, hmono, herr, hall⟩ := cycleSearch_facts
    (buildDependencyGraph (taskIdSet tasks) tasks) (buildTaskRowMap tasks)
    (taskIdSet tasks) (buildDependencyGraph_closed _ _) (tasks.length + 1)
    (Nat.succ_pos _) (taskIdSet tasks) (fun x hx => hx) ⟨[], [], []⟩
    ⟨by simp, by simp, List.nodup_nil⟩
  refine ⟨hinv.2.2,
    fun x => ⟨fun hx => hinv.2.1 x hx, fun hx => hall x hx⟩, ?_⟩
  have h1 := List.toFinset_card_of_nodup hinv.2.2
  have h2 : (cycleSearch (buildDependencyGraph (taskIdSet tasks) tasks)
      (buildTaskRowMap tasks) (tasks.length + 1) (taskIdSet tasks)
      ⟨[], [], []⟩).visited.toFinset ⊆ (taskIdSet tasks).toFinset := by
    intro x hx
    rw [List.mem_toFinset] at hx ⊢
    exact hinv.2.1 x hx
  have h3 := Finset.card_le_card h2
  have h4 := (taskIdSet tasks).toFinset_card_le
  have h5 := taskIdSet_length_le tasks
  omega

/-- **C4 (counterexample).** A single weakly-connected cluster — the
two-cycle `A ↔ B` plus `C → A` — produces two distinct cycle reports:
the genuine `A → B → A` and, because the dirty recursion stack makes
`indexOf` miss and `slice(-1)` grab only the last path element, the
spurious `C → A`. -/
theorem two_cycle_reports_in_one_cluster :
    jsSetList ((validateCircularDependencies c4Tasks).map (·.message)) =
      ["Circular dependency detected: A → B → A",
       "Circular dependency detected: C → A"] := by decide

/-- Entering an unvisited node `a` of the three-cycle `a → b → c → a`
deterministically walks the cycle and reports exactly its rotation
starting at `a`: one exact state equation for the four nested calls. -/
theorem hasCycle_trio_entry (g : List (String × List String))
    (rowMap : List (String × Nat)) (a b c : String)
    (hab : a ≠ b) (hac : a ≠ c) (hbc : b ≠ c)
    (hga : jsMapGet g a = some [b]) (hgb : jsMapGet g b = some [c])
    (hgc : jsMapGet g c = some [a]) :
    ∀ (f : Nat) (path : List String) (st : DfsState),
      a ∉ st.visited → b ∉ st.visited → c ∉ st.visited →
      (∀ x ∈ st.stack, x ∈ st.visited) →
      (∀ x ∈ path, x ∈ st.visited) →
      hasCycle g rowMap (f + 4) a path st =
        (true,
         ⟨jsSetAdd (jsSetAdd (jsSetAdd st.visited a) b) c,
          jsSetAdd (jsSetAdd (jsSetAdd st.stack a) b) c,
          st.errors ++ cycleErrors rowMap [a, b, c, a]⟩) := by
  intro f path st hva hvb hvc hsv hpv
  have hanp : a ∉ path := fun hm => hva (hpv a hm)
  have hstack3a : a ∈ jsSetAdd (jsSetAdd (jsSetAdd st.stack a) b) c :=
    (mem_jsSetAdd _ _ _).mpr (Or.inl ((mem_jsSetAdd _ _ _).mpr
      (Or.inl ((mem_jsSetAdd _ _ _).mpr (Or.inr rfl)))))
  have h4 : hasCycle g rowMap (f + 1) a (((path ++ [a]) ++ [b]) ++ [c])
      ⟨jsSetAdd (jsSetAdd (jsSetAdd st.visited a) b) c,
       jsSetAdd (jsSetAdd (jsSetAdd st.stack a) b) c,
       st.errors⟩ =
      (true,
       ⟨jsSetAdd (jsSetAdd (jsSetAdd st.visited a) b) c,
        jsSetAdd (jsSetAdd (jsSetAdd st.stack a) b) c,
        st.errors ++ cycleErrors rowMap [a, b, c, a]⟩) := by
    rw [hasCycle_succ]
    rw [if_pos ((contains_iff_mem_str _ _).mpr hstack3a)]
    have hpe : ((path ++ [a]) ++ [b]) ++ [c] = path ++ [a, b, c] := by
      simp
    rw [hpe, cycleSlice_eval path a b c hanp]
  have h3 : hasCycle g rowMap (f + 1 + 1) c ((path ++ [a]) ++ [b])
      ⟨jsSetAdd (jsSetAdd st.visited a) b,
       jsSetAdd (jsSetAdd st.stack a) b,
       st.errors⟩ =
      (true,
       ⟨jsSetAdd (jsSetAdd (jsSetAdd st.visited a) b) c,
        jsSetAdd (jsSetAdd (jsSetAdd st.stack a) b) c,
        st.errors ++ cycleErrors rowMap [a, b, c, a]⟩) := by
    rw [hasCycle_succ]
    have hs : ¬ ((jsSetAdd (jsSetAdd st.stack a) b).contains c = true) := by
      intro h
      rcases (mem_jsSetAdd _ _ _).mp ((contains_iff_mem_str _ _).mp h)
        with h | h
      · rcases (mem_jsSetAdd _ _ _).mp h with h | h
        · exact hvc (hsv c h)
        · exact hac h.symm
      · exact hbc h.symm
    have hv : ¬ ((jsSetAdd (jsSetAdd st.visited a) b).contains c = true) := by
      intro h
      rcases (mem_jsSetAdd _ _ _).mp ((contains_iff_mem_str _ _).mp h)
        with h | h
      · rcases (mem_jsSetAdd _ _ _).mp h with h | h
        · exact hvc h
        · exact hac h.symm
      · exact hbc h.symm
    rw [if_neg hs, if_neg hv]
    dsimp only
    rw [hgc]
    simp only [Option.getD_some, List.foldl_cons, List.foldl_nil]
    rw [if_neg Bool.false_ne_true]
    rw [h4]
    dsimp only
    rw [if_pos rfl]
  have h2 : hasCycle g rowMap (f + 1 + 1 + 1) b (path ++ [a])
      ⟨jsSetAdd st.visited a, jsSetAdd st.stack a, st.errors⟩ =
      (true,
       ⟨jsSetAdd (jsSetAdd (jsSetAdd st.visited a) b) c,
        jsSetAdd (jsSetAdd (jsSetAdd st.stack a) b) c,
        st.errors ++ cycleErrors rowMap [a, b, c, a]⟩) := by
    rw [hasCycle_succ]
    have hs : ¬ ((jsSetAdd st.stack a).contains b = true) := by
      intro h
      rcases (mem_jsSetAdd _ _ _).mp ((contains_iff_mem_str _ _).mp h)
        with h | h
      · exact hvb (hsv b h)
      · exact hab h.symm
    have hv : ¬ ((jsSetAdd st.visited a).contains b = true) := by
      intro h
      rcases (mem_jsSetAdd _ _ _).mp ((contains_iff_mem_str _ _).mp h)
        with h | h
      · exact hvb h
      · exact hab h.symm
    rw [if_neg hs, if_neg hv]
    dsimp only
    rw [hgb]
    simp only [Option.getD_some, List.foldl_cons, List.foldl_nil]
    rw [if_neg Bool.false_ne_true]
    rw [h3]
    dsimp only
    rw [if_pos rfl]
  show hasCycle g rowMap (f + 1 + 1 + 1 + 1) a path st = _
  rw [hasCycle_succ]
  have hsa : ¬ (st.stack.contains a = true) :=
    fun h => hva (hsv a ((contains_iff_mem_str _ _).mp h))
  have hva' : ¬ (st.visited.contains a = true) :=
    fun h => hva ((contains_iff_mem_str _ _).mp h)
  rw [if_neg hsa, if_neg hva']
  dsimp only
  rw [hga]
  simp only [Option.getD_some, List.foldl_cons, List.foldl_nil]
  rw [if_neg Bool.false_ne_true]
  rw [h2]
  dsimp only
  rw [if_pos rfl]

theorem ucount_mono (ids : List String) (st st' : DfsState)
    (h : ∀ x ∈ st.visited, x ∈ st'.visited) :
    ucount ids st' ≤ ucount ids st := by
  unfold ucount
  apply filter_length_mono
  intro i hi
  have h1 : i ∉ st'.visited := by simpa using hi
  have h2 : i ∉ st.visited := fun hm => h1 (h i hm)
  simpa using h2

theorem cyclePresent_mono (rowMap : List (String × Nat)) (a b c : String)
    (errs errs' : List ValidationError) (hsub : ∀ e ∈ errs, e ∈ errs')
    (h : cyclePresent rowMap a b c errs) :
    cyclePresent rowMap a b c errs' := by
  obtain ⟨x, y, z, hrot, hall⟩ := h
  exact ⟨x, y, z, hrot, fun e he => hsub e (hall e he)⟩

theorem ucount_ge_three (ids : List String) (st : DfsState)
    (a b c : String) (hab : a ≠ b) (hac : a ≠ c) (hbc : b ≠ c)
    (hma : a ∈ ids) (hmb : b ∈ ids) (hmc : c ∈ ids)
    (hva : a ∉ st.visited) (hvb : b ∉ st.visited) (hvc : c ∉ st.visited) :
    3 ≤ ucount ids st := by
  have hsub : ({a, b, c} : Finset String) ⊆
      (ids.filter (fun i => !st.visited.contains i)).toFinset := by
    intro x hx
    simp only [Finset.mem_insert, Finset.mem_singleton] at hx
    rw [List.mem_toFinset, List.mem_filter]
    rcases hx with rfl | rfl | rfl
    · exact ⟨hma, by simpa using hva⟩
    · exact ⟨hmb, by simpa using hvb⟩
    · exact ⟨hmc, by simpa using hvc⟩
  have hcard : ({a, b, c} : Finset String).card = 3 := by
    rw [Finset.card_insert_of_not_mem (by simp [hab, hac]),
      Finset.card_insert_of_not_mem (by simp [hbc]),
      Finset.card_singleton]
  have h1 := Finset.card_le_card hsub
  have h2 := (ids.filter (fun i => !st.visited.contains i)).toFinset_card_le
  unfold ucount
  omega

/-- The common post-state facts after the three-cycle walk. -/
theorem trio_post (ids : List String) (rowMap : List (String × Nat))
    (x y z : String) (hmx : x ∈ ids) (hmy : y ∈ ids) (hmz : z ∈ ids)
    (st : DfsState) (hinv : dfsInv ids st) :
    dfsInv ids ⟨jsSetAdd (jsSetAdd (jsSetAdd st.visited x) y) z,
                jsSetAdd (jsSetAdd (jsSetAdd st.stack x) y) z,
                st.errors ++ cycleErrors rowMap [x, y, z, x]⟩ ∧
    (∀ u ∈ st.visited,
      u ∈ jsSetAdd (jsSetAdd (jsSetAdd st.visited x) y) z) ∧
    (x ∈ jsSetAdd (jsSetAdd (jsSetAdd st.visited x) y) z) := by
  have hmono : ∀ u ∈ st.visited,
      u ∈ jsSetAdd (jsSetAdd (jsSetAdd st.visited x) y) z :=
    fun u hu => (mem_jsSetAdd _ _ _).mpr (Or.inl ((mem_jsSetAdd _ _ _).mpr
      (Or.inl ((mem_jsSetAdd _ _ _).mpr (Or.inl hu)))))
  refine ⟨⟨?_, ?_, ?_⟩, hmono, ?_⟩
  · intro u hu
    rcases (mem_jsSetAdd _ _ _).mp hu with h | h
    · rcases (mem_jsSetAdd _ _ _).mp h with h | h
      · rcases (mem_jsSetAdd _ _ _).mp h with h | h
        · exact hmono u (hinv.1 u h)
        · exact (mem_jsSetAdd _ _ _).mpr (Or.inl ((mem_jsSetAdd _ _ _).mpr
            (Or.inl ((mem_jsSetAdd _ _ _).mpr (Or.inr h)))))
      · exact (mem_jsSetAdd _ _ _).mpr
          (Or.inl ((mem_jsSetAdd _ _ _).mpr (Or.inr h)))
    · exact (mem_jsSetAdd _ _ _).mpr (Or.inr h)
  · intro u hu
    rcases (mem_jsSetAdd _ _ _).mp hu with h | h
    · rcases (mem_jsSetAdd _ _ _).mp h with h | h
      · rcases (mem_jsSetAdd _ _ _).mp h with h | h
        · exact hinv.2.1 u h
        · exact h ▸ hmx
      · exact h ▸ hmy
    · exact h ▸ hmz
  · exact nodup_jsSetAdd _ _ (nodup_jsSetAdd _ _
      (nodup_jsSetAdd _ _ hinv.2.2))
  · exact (mem_jsSetAdd _ _ _).mpr (Or.inl ((mem_jsSetAdd _ _ _).mpr
      (Or.inl ((mem_jsSetAdd _ _ _).mpr (Or.inr rfl)))))

/-- Joint invariant for the three-cycle claim: one `hasCycle` call keeps
the DFS invariants, grows visited/errors monotonically, visits its
argument, never raises the unvisited count, and preserves "either none of
`a`,`b`,`c` is visited yet, or a rotation of their cycle has been
reported". -/
theorem hasCycle_master (g : List (String × List String))
    (rowMap : List (String × Nat)) (ids : List String)
    (hg : graphClosed ids g) (a b c : String)
    (hab : a ≠ b) (hac : a ≠ c) (hbc : b ≠ c)
    (hga : jsMapGet g a = some [b]) (hgb : jsMapGet g b = some [c])
    (hgc : jsMapGet g c = some [a])
    (hma : a ∈ ids) (hmb : b ∈ ids) (hmc : c ∈ ids) :
    ∀ (fuel : Nat) (taskId : String) (path : List String) (st : DfsState),
      taskId ∈ ids → dfsInv ids st →
      (∀ x ∈ path, x ∈ st.visited) →
      ucount ids st < fuel →
      ((a ∉ st.visited ∧ b ∉ st.visited ∧ c ∉ st.visited) ∨
        cyclePresent rowMap a b c st.errors) →
      dfsInv ids (hasCycle g rowMap fuel taskId path st).2 ∧
      (∀ x ∈ st.visited,
        x ∈ (hasCycle g rowMap fuel taskId path st).2.visited) ∧
      (∀ e ∈ st.errors,
        e ∈ (hasCycle g rowMap fuel taskId path st).2.errors) ∧
      taskId ∈ (hasCycle g rowMap fuel taskId path st).2.visited ∧
      ucount ids (hasCycle g rowMap fuel taskId path st).2 ≤
        ucount ids st ∧
      ((a ∉ (hasCycle g rowMap fuel taskId path st).2.visited ∧
        b ∉ (hasCycle g rowMap fuel taskId path st).2.visited ∧
        c ∉ (hasCycle g rowMap fuel taskId path st).2.visited) ∨
        cyclePresent rowMap a b c
          (hasCycle g rowMap fuel taskId path st).2.errors) := by
  intro fuel
  induction fuel with
  | zero =>
      intro taskId path st _ _ _ hfuel _
      exact absurd hfuel (by omega)
  | succ fuel ih =>
      intro taskId path st htid hinv hpath hfuel hinv3
      rcases hinv3 with ⟨hva, hvb, hvc⟩ | hcp
      · -- no cycle node visited yet
        by_cases htrio : taskId = a ∨ taskId = b ∨ taskId = c
        · -- entering the cycle: the walk reports a rotation
          have h3 := ucount_ge_three ids st a b c hab hac hbc hma hmb hmc
            hva hvb hvc
          obtain ⟨f, hf⟩ : ∃ f, fuel + 1 = f + 4 :=
            ⟨fuel + 1 - 4, by omega⟩
          rw [hf]
          rcases htrio with rfl | rfl | rfl
          · rw [hasCycle_trio_entry g rowMap taskId b c hab hac hbc
              hga hgb hgc f path st hva hvb hvc hinv.1 hpath]
            obtain ⟨hp1, hp2, hp3⟩ := trio_post ids rowMap taskId b c
              hma hmb hmc st hinv
            refine ⟨hp1, hp2, fun e he => List.mem_append_left _ he,
              hp3, ucount_mono ids st _ hp2, Or.inr ?_⟩
            exact ⟨taskId, b, c, Or.inl rfl,
              fun e he => List.mem_append_right _ he⟩
          · rw [hasCycle_trio_entry g rowMap taskId c a hbc
              (fun h => hab h.symm) (fun h => hac h.symm)
              hgb hgc hga f path st hvb hvc hva hinv.1 hpath]
            obtain ⟨hp1, hp2, hp3⟩ := trio_post ids rowMap taskId c a
              hmb hmc hma st hinv
            refine ⟨hp1, hp2, fun e he => List.mem_append_left _ he,
              hp3, ucount_mono ids st _ hp2, Or.inr ?_⟩
            exact ⟨taskId, c, a, Or.inr (Or.inl rfl),
              fun e he => List.mem_append_right _ he⟩
          · rw [hasCycle_trio_entry g rowMap taskId a b
              (fun h => hac h.symm) (fun h => hbc h.symm) hab
              hgc hga hgb f path st hvc hva hvb hinv.1 hpath]
            obtain ⟨hp1, hp2, hp3⟩ := trio_post ids rowMap taskId a b
              hmc hma hmb st hinv
            refine ⟨hp1, hp2, fun e he => List.mem_append_left _ he,
              hp3, ucount_mono ids st _ hp2, Or.inr ?_⟩
            exact ⟨taskId, a, b, Or.inr (Or.inr rfl),
              fun e he => List.mem_append_right _ he⟩
        · -- a node outside the cycle
          push_neg at htrio
          obtain ⟨hta, htb, htc⟩ := htrio
          rw [hasCycle_succ]
          by_cases h1 : st.stack.contains taskId = true
          · rw [if_pos h1]
            refine ⟨⟨hinv.1, hinv.2.1, hinv.2.2⟩, fun x hx => hx,
              fun e he => List.mem_append_left _ he,
              hinv.1 taskId ((contains_iff_mem_str _ _).mp h1),
              le_refl _, Or.inl ⟨hva, hvb, hvc⟩⟩
          · rw [if_neg h1]
            by_cases h2 : st.visited.contains taskId = true
            · rw [if_pos h2]
              exact ⟨hinv, fun x hx => hx, fun e he => he,
                (contains_iff_mem_str _ _).mp h2, le_refl _,
                Or.inl ⟨hva, hvb, hvc⟩⟩
            · rw [if_neg h2]
              dsimp only
              have hnv : taskId ∉ st.visited :=
                fun hm => h2 ((contains_iff_mem_str _ _).mpr hm)
              have hinv1 : dfsInv ids
                  { st with visited := jsSetAdd st.visited taskId,
                            stack := jsSetAdd st.stack taskId } := by
                refine ⟨?_, ?_, ?_⟩
                · intro x hx
                  rcases (mem_jsSetAdd _ _ _).mp hx with h | h
                  · exact (mem_jsSetAdd _ _ _).mpr (Or.inl (hinv.1 x h))
                  · exact (mem_jsSetAdd _ _ _).mpr (Or.inr h)
                · intro x hx
                  rcases (mem_jsSetAdd _ _ _).mp hx with h | h
                  · exact hinv.2.1 x h
                  · exact h ▸ htid
                · exact nodup_jsSetAdd _ _ hinv.2.2
              have hpath1 : ∀ x ∈ path ++ [taskId],
                  x ∈ (jsSetAdd st.visited taskId) := by
                intro x hx
                rcases List.mem_append.mp hx with h | h
                · exact (mem_jsSetAdd _ _ _).mpr (Or.inl (hpath x h))
                · exact (mem_jsSetAdd _ _ _).mpr
                    (Or.inr (List.mem_singleton.mp h))
              have hucnt1 : ucount ids
                  { st with visited := jsSetAdd st.visited taskId,
                            stack := jsSetAdd st.stack taskId } + 1 ≤
                  ucount ids st :=
                ucount_visit st.visited taskId hnv ids htid
              have hinv31 : (a ∉ (jsSetAdd st.visited taskId) ∧
                  b ∉ (jsSetAdd st.visited taskId) ∧
                  c ∉ (jsSetAdd st.visited taskId)) ∨
                  cyclePresent rowMap a b c st.errors := by
                refine Or.inl ⟨?_, ?_, ?_⟩
                · intro hm
                  rcases (mem_jsSetAdd _ _ _).mp hm with h | h
                  · exact hva h
                  · exact hta h.symm
                · intro hm
                  rcases (mem_jsSetAdd _ _ _).mp hm with h | h
                  · exact hvb h
                  · exact htb h.symm
                · intro hm
                  rcases (mem_jsSetAdd _ _ _).mp hm with h | h
                  · exact hvc h
                  · exact htc h.symm
              have hdeps : ∀ d ∈ (jsMapGet g taskId).getD [], d ∈ ids := by
                intro d hd
                cases hget : jsMapGet g taskId with
                | none => rw [hget] at hd; simp at hd
                | some l =>
                    rw [hget] at hd
                    exact hg taskId l hget d hd
              have hfold : ∀ (ds : List String), (∀ d ∈ ds, d ∈ ids) →
                  ∀ (acc : Bool × DfsState), dfsInv ids acc.2 →
                  (∀ x ∈ path ++ [taskId], x ∈ acc.2.visited) →
                  ucount ids acc.2 < fuel →
                  ((a ∉ acc.2.visited ∧ b ∉ acc.2.visited ∧
                    c ∉ acc.2.visited) ∨
                    cyclePresent rowMap a b c acc.2.errors) →
                  dfsInv ids (ds.foldl (fun acc d =>
                    if acc.1 then acc
                    else hasCycle g rowMap fuel d (path ++ [taskId]) acc.2)
                    acc).2 ∧
                  (∀ x ∈ acc.2.visited, x ∈ (ds.foldl (fun acc d =>
                    if acc.1 then acc
                    else hasCycle g rowMap fuel d (path ++ [taskId]) acc.2)
                    acc).2.visited) ∧
                  (∀ e ∈ acc.2.errors, e ∈ (ds.foldl (fun acc d =>
                    if acc.1 then acc
                    else hasCycle g rowMap fuel d (path ++ [taskId]) acc.2)
                    acc).2.errors) ∧
                  ucount ids (ds.foldl (fun acc d =>
                    if acc.1 then acc
                    else hasCycle g rowMap fuel d (path ++ [taskId]) acc.2)
                    acc).2 ≤ ucount ids acc.2 ∧
                  ((a ∉ (ds.foldl (fun acc d =>
                    if acc.1 then acc
                    else hasCycle g rowMap fuel d (path ++ [taskId]) acc.2)
                    acc).2.visited ∧
                    b ∉ (ds.foldl (fun acc d =>
                    if acc.1 then acc
                    else hasCycle g rowMap fuel d (path ++ [taskId]) acc.2)
                    acc).2.visited ∧
                    c ∉ (ds.foldl (fun acc d =>
                    if acc.1 then acc
                    else hasCycle g rowMap fuel d (path ++ [taskId]) acc.2)
                    acc).2.visited) ∨
                    cyclePresent rowMap a b c ((ds.foldl (fun acc d =>
                    if acc.1 then acc
                    else hasCycle g rowMap fuel d (path ++ [taskId]) acc.2)
                    acc).2.errors)) := by
                intro ds
                induction ds with
                | nil =>
                    intro _ acc hacc _ _ hacc3
                    exact ⟨hacc, fun x hx => hx, fun e he => he,
                      le_refl _, hacc3⟩
                | cons d rest ihd =>
                    intro hds acc hacc haccp haccf hacc3
                    simp only [List.foldl_cons]
                    by_cases hb : acc.1 = true
                    · rw [if_pos hb]
                      exact ihd
                        (fun u hu => hds u (List.mem_cons_of_mem _ hu))
                        acc hacc haccp haccf hacc3
                    · rw [if_neg hb]
                      obtain ⟨ha1, ha2, ha3, _, ha5, ha6⟩ :=
                        ih d (path ++ [taskId]) acc.2
                          (hds d (List.mem_cons_self _ _)) hacc haccp
                          haccf hacc3
                      obtain ⟨hb1, hb2, hb3, hb4, hb5⟩ :=
                        ihd (fun u hu => hds u (List.mem_cons_of_mem _ hu))
                          (hasCycle g rowMap fuel d (path ++ [taskId])
                            acc.2) ha1
                          (fun x hx => ha2 x (haccp x hx))
                          (lt_of_le_of_lt ha5 haccf) ha6
                      exact ⟨hb1, fun x hx => hb2 x (ha2 x hx),
                        fun e he => hb3 e (ha3 e he),
                        le_trans hb4 ha5, hb5⟩
              obtain ⟨hf1, hf2, hf3, hf4, hf5⟩ :=
                hfold ((jsMapGet g taskId).getD []) hdeps
                  (false, { st with visited := jsSetAdd st.visited taskId,
                                    stack := jsSetAdd st.stack taskId })
                  hinv1 hpath1 (by dsimp only; omega) hinv31
              rcases hfr : ((jsMapGet g taskId).getD []).foldl
                  (fun acc d =>
                    if acc.1 then acc
                    else hasCycle g rowMap fuel d (path ++ [taskId]) acc.2)
                  (false, { st with visited := jsSetAdd st.visited taskId,
                                    stack := jsSetAdd st.stack taskId })
                  with ⟨bb, st2⟩
              rw [hfr] at hf1 hf2 hf3 hf4 hf5
              dsimp only at hf1 hf2 hf3 hf4 hf5
              have hmono : ∀ x ∈ st.visited, x ∈ st2.visited :=
                fun x hx => hf2 x ((mem_jsSetAdd _ _ _).mpr (Or.inl hx))
              have hself : taskId ∈ st2.visited :=
                hf2 taskId ((mem_jsSetAdd _ _ _).mpr (Or.inr rfl))
              have hucfin : ucount ids st2 ≤ ucount ids st := by omega
              cases bb with
              | true =>
                  rw [hfr]
                  dsimp only
                  rw [if_pos rfl]
                  exact ⟨hf1, hmono, fun e he => hf3 e he, hself,
                    hucfin, hf5⟩
              | false =>
                  rw [hfr]
                  dsimp only
                  rw [if_neg Bool.false_ne_true]
                  refine ⟨⟨?_, hf1.2.1, hf1.2.2⟩, hmono,
                    fun e he => hf3 e he, hself, hucfin, hf5⟩
                  intro x hx
                  exact hf1.1 x (mem_of_mem_jsSetRemove _ _ _ hx)
      · -- a rotation is already reported: general facts suffice
        obtain ⟨hc1, hc2, hc3, hc4⟩ := hasCycle_facts g rowMap ids hg
          (fuel + 1) taskId path st htid hinv
        exact ⟨hc1, hc2, hc3, hc4 (Nat.succ_pos _),
          ucount_mono ids st _ hc2,
          Or.inr (cyclePresent_mono rowMap a b c st.errors _ hc3 hcp)⟩

/-- The driver loop under the three-cycle hypotheses: it visits every id
it iterates over and ends with the cycle reported (or the cycle still
untouched). -/
theorem cycleSearch_master (g : List (String × List String))
    (rowMap : List (String × Nat)) (ids0 : List String)
    (hg : graphClosed ids0 g) (a b c : String)
    (hab : a ≠ b) (hac : a ≠ c) (hbc : b ≠ c)
    (hga : jsMapGet g a = some [b]) (hgb : jsMapGet g b = some [c])
    (hgc : jsMapGet g c = some [a])
    (hma : a ∈ ids0) (hmb : b ∈ ids0) (hmc : c ∈ ids0) (fuel : Nat) :
    ∀ ids : List String, (∀ x ∈ ids, x ∈ ids0) →
    ∀ st : DfsState, dfsInv ids0 st →
      ucount ids0 st < fuel →
      ((a ∉ st.visited ∧ b ∉ st.visited ∧ c ∉ st.visited) ∨
        cyclePresent rowMap a b c st.errors) →
      dfsInv ids0 (cycleSearch g rowMap fuel ids st) ∧
      ucount ids0 (cycleSearch g rowMap fuel ids st) ≤ ucount ids0 st ∧
      (∀ x ∈ ids, x ∈ (cycleSearch g rowMap fuel ids st).visited) ∧
      ((a ∉ (cycleSearch g rowMap fuel ids st).visited ∧
        b ∉ (cycleSearch g rowMap fuel ids st).visited ∧
        c ∉ (cycleSearch g rowMap fuel ids st).visited) ∨
        cyclePresent rowMap a b c
          (cycleSearch g rowMap fuel ids st).errors) := by
  intro ids
  induction ids with
  | nil =>
      intro _ st hinv _ hinv3
      exact ⟨hinv, le_refl _, by simp, hinv3⟩
  | cons x rest ih =>
      intro hsub st hinv hfuel hinv3
      have hsubr : ∀ u ∈ rest, u ∈ ids0 :=
        fun u hu => hsub u (List.mem_cons_of_mem _ hu)
      have hstep : cycleSearch g rowMap fuel (x :: rest) st =
          cycleSearch g rowMap fuel rest
            (if st.visited.contains x then st
             else (hasCycle g rowMap fuel x [] st).2) := rfl
      rw [hstep]
      by_cases hx : st.visited.contains x = true
      · rw [if_pos hx]
        obtain ⟨h1, h2, h3, h4⟩ := ih hsubr st hinv hfuel hinv3
        refine ⟨h1, h2, ?_, h4⟩
        intro u hu
        rcases List.mem_cons.mp hu with hu | hu
        · -- u = x already visited, and visited grows
          obtain ⟨_, hmono, _, _⟩ := cycleSearch_facts g rowMap ids0 hg
            fuel (by omega) rest hsubr st hinv
          exact hu ▸ hmono x ((contains_iff_mem_str _ _).mp hx)
        · exact h3 u hu
      · rw [if_neg hx]
        obtain ⟨hc1, hc2, hc3, hc4, hc5, hc6⟩ := hasCycle_master g rowMap
          ids0 hg a b c hab hac hbc hga hgb hgc hma hmb hmc fuel x []
          st (hsub x (List.mem_cons_self _ _)) hinv (by simp) hfuel hinv3
        obtain ⟨h1, h2, h3, h4⟩ :=
          ih hsubr (hasCycle g rowMap fuel x [] st).2 hc1
            (lt_of_le_of_lt hc5 hfuel) hc6
        refine ⟨h1, le_trans h2 hc5, ?_, h4⟩
        intro u hu
        rcases List.mem_cons.mp hu with hu | hu
        · obtain ⟨_, hmono, _, _⟩ := cycleSearch_facts g rowMap ids0 hg
            fuel (by omega) rest hsubr
            (hasCycle g rowMap fuel x [] st).2 hc1
          exact hu ▸ hmono x hc4
        · exact h3 u hu

/-- **C3.** For every task collection whose built dependency graph
contains three distinct ids `T1`, `T2`, `T3` with exactly the edges
`T1 → T2`, `T2 → T3`, `T3 → T1`, the circular-dependency validator
reports some rotation of that cycle: one error for every entry of the
arrow-joined chain (the entry id twice) — so at least one error per task
on the cycle, each with field `dependencies` and a message rendering the
whole chain, hence containing all three ids in path order. -/
theorem validateCircularDependencies_trio (tasks : List RTask)
    (T1 T2 T3 : String)
    (h12 : T1 ≠ T2) (h13 : T1 ≠ T3) (h23 : T2 ≠ T3)
    (hm1 : T1 ∈ taskIdSet tasks) (hm2 : T2 ∈ taskIdSet tasks)
    (hm3 : T3 ∈ taskIdSet tasks)
    (hg1 : jsMapGet (buildDependencyGraph (taskIdSet tasks) tasks) T1 =
      some [T2])
    (hg2 : jsMapGet (buildDependencyGraph (taskIdSet tasks) tasks) T2 =
      some [T3])
    (hg3 : jsMapGet (buildDependencyGraph (taskIdSet tasks) tasks) T3 =
      some [T1]) :
    cyclePresent (buildTaskRowMap tasks) T1 T2 T3
      (validateCircularDependencies tasks) := by
  have hfuel : ucount (taskIdSet tasks) ⟨[], [], []⟩ < tasks.length + 1 := by
    have h1 : ucount (taskIdSet tasks) ⟨[], [], []⟩ ≤
        (taskIdSet tasks).length := ucount_le_length _ _
    have h2 := taskIdSet_length_le tasks
    omega
  obtain ⟨hinv, huc, hall, hinv3⟩ := cycleSearch_master
    (buildDependencyGraph (taskIdSet tasks) tasks) (buildTaskRowMap tasks)
    (taskIdSet tasks) (buildDependencyGraph_closed _ _) T1 T2 T3
    h12 h13 h23 hg1 hg2 hg3 hm1 hm2 hm3 (tasks.length + 1)
    (taskIdSet tasks) (fun u hu => hu) ⟨[], [], []⟩
    ⟨by simp, by simp, List.nodup_nil⟩ hfuel
    (Or.inl ⟨by simp, by simp, by simp⟩)
  have h1 : T1 ∈ (cycleSearch (buildDependencyGraph (taskIdSet tasks)
      tasks) (buildTaskRowMap tasks) (tasks.length + 1) (taskIdSet tasks)
      ⟨[], [], []⟩).visited := hall T1 hm1
  rcases hinv3 with ⟨hna, _, _⟩ | hcp
  · exact absurd h1 hna
  · exact hcp

theorem validateCircularDependencies_trio_witness :
    ("T1" : String) ≠ "T2" ∧
    jsMapGet (buildDependencyGraph (taskIdSet c3Tasks) c3Tasks) "T1" =
      some ["T2"] ∧
    validateCircularDependencies c3Tasks =
      cycleErrors (buildTaskRowMap c3Tasks) ["T1", "T2", "T3", "T1"] ∧
    cyclePresent (buildTaskRowMap c3Tasks) "T1" "T2" "T3"
      (validateCircularDependencies c3Tasks) :=
  ⟨by decide, by decide, by decide,
   validateCircularDependencies_trio c3Tasks "T1" "T2" "T3"
     (by decide) (by decide) (by decide) (by decide) (by decide)
     (by decide) (by decide) (by decide) (by decide)⟩

end DataAlchemist

